import Mathlib

set_option maxRecDepth 100000

/-!
# Verification of the lms-go library (RFC 8554 LMS / LM-OTS)

This file gives a shallow embedding, in Lean 4, of the core of the
`trailofbits/lms-go` library: the typecode/parameter registry
(`lms/common/types.go`), the Winternitz coefficient extractor and checksum
(`lms/common/util.go`), the LM-OTS layer (`lms/ots`), and the LMS layer
(`lms/lms`), together with theorems settling the specification claims.

Modelling conventions:

* Go byte slices (`[]byte`) are `List Nat`; a byte is a `Nat` (reduced
  mod 256 exactly where the Go code performs a conversion to a byte).
* Go machine integers are `Nat` with explicit `% 2^32` / `% 2^16` at the
  points where the Go code truncates (`uint32(..)`, `uint16(..)`,
  `binary.BigEndian.PutUint32`, wrapping `uint16` addition, ...).
* `hash.Hash` streaming hashing (a sequence of `Write`s followed by one
  `Sum`) is modelled by applying the hash function to the concatenation of
  all written byte strings.  The registry instantiates every parameter set
  with SHA-256, which is embedded below as a pure function on byte lists.
* Functions returning `(T, error)` become `Except String T`, carrying the
  error strings of the source.  Methods that mutate their receiver
  (`LmsOtsPrivateKey.Sign`, `LmsPrivateKey.Sign`) return the result paired
  with the post-call receiver state.
* The `crypto/rand` / `io.Reader` randomness source is an injected value
  `Except String (List Nat)`: `.error e` models a failing `Read`, `.ok bs`
  models a `Read` that fills the request buffer from `bs` (zero-padded, as
  an untouched Go buffer stays zeroed).
-/

/-! ## Bytes and big-endian encoders (`encoding/binary`) -/

/-- `binary.BigEndian.PutUint32`: the four big-endian bytes of `uint32(n)`. -/
def be32 (n : Nat) : List Nat :=
  [(n >>> 24) % 256, (n >>> 16) % 256, (n >>> 8) % 256, n % 256]

/-- `binary.BigEndian.PutUint16`: the two big-endian bytes of `uint16(n)`. -/
def be16 (n : Nat) : List Nat :=
  [(n >>> 8) % 256, n % 256]

/-- `binary.BigEndian.Uint32` over the first four bytes of a list. -/
def beUint32 (b : List Nat) : Nat :=
  (b.get! 0 % 256) * 16777216 + (b.get! 1 % 256) * 65536 +
    (b.get! 2 % 256) * 256 + b.get! 3 % 256

/-! ## Domain separation tags (`lms/common/consts.go`) -/

def D_PBLC : List Nat := [0x80, 0x80]
def D_MESG : List Nat := [0x81, 0x81]
def D_LEAF : List Nat := [0x82, 0x82]
def D_INTR : List Nat := [0x83, 0x83]

def ID_LEN : Nat := 16

/-! ## SHA-256 (`crypto/sha256`), as a pure function on byte lists -/

def add32 (a b : Nat) : Nat := (a + b) % 4294967296

def rotr32 (n x : Nat) : Nat := (x >>> n) ||| ((x <<< (32 - n)) % 4294967296)

def shaCh (x y z : Nat) : Nat := (x &&& y) ^^^ ((x ^^^ 4294967295) &&& z)

def shaMaj (x y z : Nat) : Nat := (x &&& y) ^^^ (x &&& z) ^^^ (y &&& z)

def bsig0 (x : Nat) : Nat := rotr32 2 x ^^^ rotr32 13 x ^^^ rotr32 22 x

def bsig1 (x : Nat) : Nat := rotr32 6 x ^^^ rotr32 11 x ^^^ rotr32 25 x

def ssig0 (x : Nat) : Nat := rotr32 7 x ^^^ rotr32 18 x ^^^ (x >>> 3)

def ssig1 (x : Nat) : Nat := rotr32 17 x ^^^ rotr32 19 x ^^^ (x >>> 10)

/-- The 64 SHA-256 round constants. -/
def shaK : List Nat :=
  [1116352408, 1899447441, 3049323471, 3921009573, 961987163,
   1508970993, 2453635748, 2870763221, 3624381080, 310598401,
   607225278, 1426881987, 1925078388, 2162078206, 2614888103,
   3248222580, 3835390401, 4022224774, 264347078, 604807628,
   770255983, 1249150122, 1555081692, 1996064986, 2554220882,
   2821834349, 2952996808, 3210313671, 3336571891, 3584528711,
   113926993, 338241895, 666307205, 773529912, 1294757372,
   1396182291, 1695183700, 1986661051, 2177026350, 2456956037,
   2730485921, 2820302411, 3259730800, 3345764771, 3516065817,
   3600352804, 4094571909, 275423344, 430227734, 506948616,
   659060556, 883997877, 958139571, 1322822218, 1537002063,
   1747873779, 1955562222, 2024104815, 2227730452, 2361852424,
   2428436474, 2756734187, 3204031479, 3329325298]

/-- The SHA-256 initial hash state. -/
def shaH0 : List Nat :=
  [1779033703, 3144134277, 1013904242, 2773480762,
   1359893119, 2600822924, 528734635, 1541459225]

/-- Group a byte list into big-endian 32-bit words. -/
def bytesToWords : List Nat → List Nat
  | a :: b :: c :: d :: rest =>
      ((a % 256) * 16777216 + (b % 256) * 65536 + (c % 256) * 256 + d % 256)
        :: bytesToWords rest
  | _ => []

/-- One message-schedule extension step: append `w[t]` for `t = ws.length`. -/
def scheduleStep (ws : List Nat) : List Nat :=
  let t := ws.length
  ws ++ [add32 (add32 (ssig1 (ws.get! (t - 2))) (ws.get! (t - 7)))
           (add32 (ssig0 (ws.get! (t - 15))) (ws.get! (t - 16)))]

/-- Extend the 16-word message schedule by `n` further words. -/
def schedule (ws : List Nat) : Nat → List Nat
  | 0 => ws
  | n + 1 => schedule (scheduleStep ws) n

/-- One SHA-256 round.  `st = [a,b,c,d,e,f,g,h]`, `kw = (K[t] + W[t]) % 2^32`. -/
def shaRound (st : List Nat) (kw : Nat) : List Nat :=
  let a := st.get! 0
  let b := st.get! 1
  let c := st.get! 2
  let d := st.get! 3
  let e := st.get! 4
  let f := st.get! 5
  let g := st.get! 6
  let h := st.get! 7
  let t1 := add32 h (add32 (bsig1 e) (add32 (shaCh e f g) kw))
  let t2 := add32 (bsig0 a) (shaMaj a b c)
  [add32 t1 t2, a, b, c, add32 d t1, e, f, g]

/-- Compress one 64-byte block into the running state. -/
def compressBlock (st : List Nat) (block : List Nat) : List Nat :=
  let ws := schedule (bytesToWords block) 48
  let kws := List.zipWith (fun k w => add32 k w) shaK ws
  let st2 := kws.foldl shaRound st
  List.zipWith add32 st st2

/-- SHA-256 padding: a `0x80` byte, zeros, and the 64-bit bit length. -/
def shaPad (msg : List Nat) : List Nat :=
  let padlen := (120 - (msg.length + 1) % 64) % 64
  let bitlen := (8 * msg.length) % 18446744073709551616
  msg ++ [0x80] ++ List.replicate padlen 0 ++
    [(bitlen >>> 56) % 256, (bitlen >>> 48) % 256, (bitlen >>> 40) % 256,
     (bitlen >>> 32) % 256, (bitlen >>> 24) % 256, (bitlen >>> 16) % 256,
     (bitlen >>> 8) % 256, bitlen % 256]

/-- Split a byte list into `n` 64-byte chunks. -/
def chunks64 : Nat → List Nat → List (List Nat)
  | 0, _ => []
  | n + 1, l => l.take 64 :: chunks64 n (l.drop 64)

/-- SHA-256 of a byte list: a 32-byte digest. -/
def sha256 (msg : List Nat) : List Nat :=
  let padded := shaPad msg
  let final := (chunks64 (padded.length / 64) padded).foldl compressBlock shaH0
  final.foldr (fun w acc => be32 w ++ acc) []

/-- Sanity check: SHA-256 of the empty string (FIPS 180-4 test vector). -/
theorem sha256_empty_kat : sha256 [] =
    [0xe3, 0xb0, 0xc4, 0x42, 0x98, 0xfc, 0x1c, 0x14, 0x9a, 0xfb, 0xf4, 0xc8,
     0x99, 0x6f, 0xb9, 0x24, 0x27, 0xae, 0x41, 0xe4, 0x64, 0x9b, 0x93, 0x4c,
     0xa4, 0x95, 0x99, 0x1b, 0x78, 0x52, 0xb8, 0x55] := by decide

/-- Sanity check: SHA-256 of `"abc"` (FIPS 180-4 test vector). -/
theorem sha256_abc_kat : sha256 [0x61, 0x62, 0x63] =
    [0xba, 0x78, 0x16, 0xbf, 0x8f, 0x01, 0xcf, 0xea, 0x41, 0x41, 0x40, 0xde,
     0x5d, 0xae, 0x22, 0x23, 0xb0, 0x03, 0x61, 0xa3, 0x96, 0x17, 0x7a, 0x9c,
     0xb4, 0x10, 0xff, 0x61, 0xf2, 0x00, 0x15, 0xad] := by decide

namespace common

/-! ## Parameter registry (`lms/common/types.go`)

LMS and LM-OTS typecodes are `uint32` values, modelled as `Nat`.  The
registered LM-OTS range is `0x01..0x08`, the registered LMS range is
`0x05..0x0E`. -/

/-- The parameters of an LMS instance (`LmsParam`). -/
structure LmsParam where
  Hash : List Nat → List Nat
  M : Nat
  H : Nat
deriving Inhabited

/-- The parameters of an LM-OTS instance (`LmsOtsParam`).  The `W` field is
the `window` value (`Window()` of the `ByteWindow`): 1, 2, 4 or 8. -/
structure LmsOtsParam where
  H : List Nat → List Nat
  N : Nat
  W : Nat
  P : Nat
  LS : Nat
  SIG_LEN : Nat
deriving Inhabited

/-- `window.Mask()`: the bit mask for a Winternitz window.  The Go method
panics on an invalid window; that branch is unreachable from the registry
and is modelled as 0. -/
def Mask (w : Nat) : Nat :=
  match w with
  | 1 => 0x01
  | 2 => 0x03
  | 4 => 0x0f
  | 8 => 0xff
  | _ => 0

/-- `lmsTypecode.LmsType()`: the typecode if within the registered LMS
range `0x05..0x0E`, otherwise an error. -/
def LmsType (x : Nat) : Except String Nat :=
  if 5 ≤ x ∧ x ≤ 14 then .ok x else .error "LmsType(): invalid type code"

/-- `lmotsTypecode.LmsOtsType()`: the typecode if within the registered
LM-OTS range `0x01..0x08`, otherwise an error. -/
def LmsOtsType (x : Nat) : Except String Nat :=
  if 1 ≤ x ∧ x ≤ 8 then .ok x else .error "LmsOtsType(): invalid type code"

/-- `lmotsTypecode.Params()`: the LM-OTS parameter registry. -/
def Params (x : Nat) : Option LmsOtsParam :=
  match x with
  | 1 => some { H := sha256, N := 32, W := 1, P := 265, LS := 7, SIG_LEN := 8516 }
  | 2 => some { H := sha256, N := 32, W := 2, P := 133, LS := 6, SIG_LEN := 4292 }
  | 3 => some { H := sha256, N := 32, W := 4, P := 67, LS := 4, SIG_LEN := 2180 }
  | 4 => some { H := sha256, N := 32, W := 8, P := 34, LS := 0, SIG_LEN := 1124 }
  | 5 => some { H := sha256, N := 24, W := 1, P := 200, LS := 8, SIG_LEN := 4828 }
  | 6 => some { H := sha256, N := 24, W := 2, P := 101, LS := 6, SIG_LEN := 2452 }
  | 7 => some { H := sha256, N := 24, W := 4, P := 51, LS := 4, SIG_LEN := 1252 }
  | 8 => some { H := sha256, N := 24, W := 8, P := 26, LS := 0, SIG_LEN := 652 }
  | _ => none

/-- `lmsTypecode.LmsParams()`: the LMS parameter registry. -/
def LmsParams (x : Nat) : Option LmsParam :=
  match x with
  | 5 => some { Hash := sha256, M := 32, H := 5 }
  | 6 => some { Hash := sha256, M := 32, H := 10 }
  | 7 => some { Hash := sha256, M := 32, H := 15 }
  | 8 => some { Hash := sha256, M := 32, H := 20 }
  | 9 => some { Hash := sha256, M := 32, H := 25 }
  | 10 => some { Hash := sha256, M := 24, H := 5 }
  | 11 => some { Hash := sha256, M := 24, H := 10 }
  | 12 => some { Hash := sha256, M := 24, H := 15 }
  | 13 => some { Hash := sha256, M := 24, H := 20 }
  | 14 => some { Hash := sha256, M := 24, H := 25 }
  | _ => none

/-- `lmotsTypecode.LmsOtsSigLength()`: the signature byte length of an
LM-OTS algorithm. -/
def LmsOtsSigLength (x : Nat) : Except String Nat :=
  if 1 ≤ x ∧ x ≤ 8 then
    match Params x with
    | some p => .ok p.SIG_LEN
    | none => .error "Params(): invalid type code"
  else .error "LmsOtsSigLength(): invalid type code"

/-- `lmsTypecode.LmsSigLength()`: the total LMS signature byte length, given
an associated LM-OTS typecode. -/
def LmsSigLength (x otstc : Nat) : Except String Nat :=
  if 5 ≤ x ∧ x ≤ 14 then
    match LmsParams x with
    | some p =>
      match LmsOtsSigLength otstc with
      | .ok otssiglen => .ok (4 + 4 + otssiglen + p.H * p.M)
      | .error e => .error e
    | none => .error "LmsParams(): invalid type code"
  else .error "LmsSigLength(): invalid type code"

/-! ## Winternitz coefficients and checksum (`lms/common/util.go`) -/

/-- `Coefs`: the base-`2^w` digits of a byte string, scanned MSB-first. -/
def Coefs (x : List Nat) (w : Nat) : List Nat :=
  let mask := Mask w
  let epb := 8 / w
  (List.range (epb * x.length)).map fun i =>
    (x.get! (i / epb) >>> (8 - w - (i % epb) * w)) &&& mask

/-- `Cksm`: the RFC 8554 checksum over a digit string, as a wrapping
`uint16` sum shifted left by `LS`.  (On digits produced by `Coefs` every
summand `2^w - 1 - c` is non-negative, so truncated `Nat` subtraction
agrees with the Go `uint16` arithmetic.) -/
def Cksm (coefs : List Nat) (w LS : Nat) : Nat :=
  ((coefs.foldl (fun sum c => (sum + ((1 <<< w) - 1 - c)) % 65536) 0) <<< LS) % 65536

/-- `Expand`: the message digits concatenated with the checksum digits,
truncated to `P` digits.  The Go slice `res[:params.P]` panics when
`P > len(res)`; that (unreachable for registry parameters applied to
`N`-byte digests) case is modelled as an error. -/
def Expand (msg : List Nat) (tc : Nat) : Except String (List Nat) :=
  match Params tc with
  | none => .error "Params(): invalid type code"
  | some p =>
    let res := Coefs msg p.W
    let res2 := res ++ Coefs (be16 (Cksm res p.W p.LS)) p.W
    if p.P ≤ res2.length then .ok (res2.take p.P)
    else .error "Expand(): slice bounds out of range"

end common

/-! ## The LM-OTS layer (`lms/ots`) -/

namespace ots

/-- `LmsOtsPrivateKey`: typecode, leaf number `q`, tree id, the `P` chain
starts `x`, and the single-use `valid` flag. -/
structure LmsOtsPrivateKey where
  typecode : Nat
  q : Nat
  id : List Nat
  x : List (List Nat)
  valid : Bool

/-- `LmsOtsPublicKey`: typecode, leaf number `q`, tree id, and the `N`-byte
key value `k`. -/
structure LmsOtsPublicKey where
  typecode : Nat
  q : Nat
  id : List Nat
  k : List Nat

/-- `LmsOtsSignature`: typecode, nonce `c`, and the `P` chain values `y`. -/
structure LmsOtsSignature where
  typecode : Nat
  c : List Nat
  y : List (List Nat)

/-- `rng.Read` into a fresh `n`-byte buffer: the buffer is filled from the
supplied bytes; unfilled positions keep their zero value. -/
def rngFill (n : Nat) (bs : List Nat) : List Nat :=
  bs.take n ++ List.replicate (n - bs.length) 0

/-- One Winternitz chain: starting from value `v`, apply `steps` chain
hashes, the first carrying step tag `s` (the loop body shared by `Public`,
`Sign` and `RecoverPublicKey`:
`tmp = H(id ‖ be32(q) ‖ be16(i) ‖ byte(j) ‖ tmp)[:N]`). -/
def chainIter (Hf : List Nat → List Nat) (n : Nat) (id : List Nat) (q i : Nat) :
    List Nat → Nat → Nat → List Nat
  | v, _, 0 => v
  | v, s, steps + 1 =>
      chainIter Hf n id q i
        ((Hf (id ++ be32 q ++ be16 i ++ [s % 256] ++ v)).take n) (s + 1) steps

/-- `ots.NewPrivateKeyFromSeed` (RFC 8554 Appendix A):
`x[i] = H(id ‖ be32(q) ‖ be16(i) ‖ 0xff ‖ seed)[:N]`. -/
def NewPrivateKeyFromSeed (tc q : Nat) (id seed : List Nat) :
    Except String LmsOtsPrivateKey :=
  match common.Params tc with
  | none => .error "Params(): invalid type code"
  | some params =>
    .ok { typecode := tc
          q := q
          id := id
          x := (List.range params.P).map fun i =>
            (params.H (id ++ be32 q ++ be16 i ++ [0xff] ++ seed)).take params.N
          valid := true }

/-- `LmsOtsPrivateKey.Public`: iterate each chain `2^W - 1` steps from
`x[i]` and hash the results under the `D_PBLC` tag. -/
def LmsOtsPrivateKey.Public (x : LmsOtsPrivateKey) :
    Except String LmsOtsPublicKey :=
  match common.Params x.typecode with
  | none => .error "Params(): invalid type code"
  | some params =>
    let finals := (List.range params.P).map fun i =>
      chainIter params.H params.N x.id x.q i (x.x.get! i) 0 ((1 <<< params.W) - 1)
    .ok { typecode := x.typecode
          q := x.q
          id := x.id
          k := (params.H (x.id ++ be32 x.q ++ D_PBLC ++ finals.flatten)).take params.N }

/-- `LmsOtsPrivateKey.Sign`: one-time signing.  Returns the result together
with the post-call key: on success the chain starts are erased (`x = nil`)
and `valid` is cleared; on any failure the key is returned unchanged. -/
def LmsOtsPrivateKey.Sign (x : LmsOtsPrivateKey) (msg : List Nat)
    (rng : Except String (List Nat)) :
    Except String LmsOtsSignature × LmsOtsPrivateKey :=
  if x.valid = false then (.error "Sign(): invalid private key", x)
  else
    match common.Params x.typecode with
    | none => (.error "Params(): invalid type code", x)
    | some params =>
      match rng with
      | .error e => (.error e, x)
      | .ok bs =>
        let c := rngFill params.N bs
        let q := (params.H (x.id ++ be32 x.q ++ D_MESG ++ c ++ msg)).take params.N
        match common.Expand q x.typecode with
        | .error e => (.error e, x)
        | .ok expanded =>
          let y := (List.range params.P).map fun i =>
            chainIter params.H params.N x.id x.q i (x.x.get! i) 0 (expanded.get! i)
          (.ok { typecode := x.typecode, c := c, y := y },
           { x with x := [], valid := false })

/-- `LmsOtsSignature.RecoverPublicKey` (RFC 8554 Algorithm 4b): continue
each chain from step `a[i]` to step `2^W - 2` and rebuild the candidate
public key.  The Go `(LmsOtsPublicKey, bool)` return is an `Option`. -/
def LmsOtsSignature.RecoverPublicKey (sig : LmsOtsSignature) (msg : List Nat)
    (pubtype : Nat) (id : List Nat) (q : Nat) : Option LmsOtsPublicKey :=
  if pubtype ≠ sig.typecode then none
  else
    match common.Params sig.typecode with
    | none => none
    | some params =>
      if sig.c.length ≠ params.N then none
      else if sig.y.length ≠ params.P then none
      else if ¬ (sig.y.all fun yi => yi.length = params.N) then none
      else
        let qd := (params.H (id ++ be32 q ++ D_MESG ++ sig.c ++ msg)).take params.N
        match common.Expand qd sig.typecode with
        | .error _ => none
        | .ok expanded =>
          let finals := (List.range params.P).map fun i =>
            let a := expanded.get! i
            chainIter params.H params.N id q i (sig.y.get! i) a ((1 <<< params.W) - 1 - a)
          some { typecode := sig.typecode
                 q := q
                 id := id
                 k := (params.H (id ++ be32 q ++ D_PBLC ++ finals.flatten)).take params.N }

/-- `LmsOtsPublicKey.Verify`: recover the candidate key and compare `k`
values (`subtle.ConstantTimeCompare` returns 1 exactly on equal length and
equal contents, i.e. list equality). -/
def LmsOtsPublicKey.Verify (pub : LmsOtsPublicKey) (msg : List Nat)
    (sig : LmsOtsSignature) : Bool :=
  match sig.RecoverPublicKey msg pub.typecode pub.id pub.q with
  | none => false
  | some kc => pub.k = kc.k

end ots

/-! ## The LMS layer (`lms/lms`) -/

namespace lms

/-- `LmsPrivateKey`: typecodes, leaf counter `q`, tree id, seed, and the
cached authentication tree (`2^(H+1) - 1` nodes, node `r` of RFC 8554's
1-based numbering stored at index `r - 1`). -/
structure LmsPrivateKey where
  typecode : Nat
  otstype : Nat
  q : Nat
  id : List Nat
  seed : List Nat
  authtree : List (List Nat)

/-- `LmsPublicKey`: typecodes, tree id, and the Merkle root `k`. -/
structure LmsPublicKey where
  typecode : Nat
  otstype : Nat
  id : List Nat
  k : List Nat

/-- `LmsSignature`: LMS typecode, leaf number `q`, the one-time signature,
and the `H`-element authentication path. -/
structure LmsSignature where
  typecode : Nat
  q : Nat
  ots : ots.LmsOtsSignature
  path : List (List Nat)

/-- The inner `for j%2 == 1` folding loop of `GeneratePKTree`: as long as
the local leaf index `j` is odd, move to the parent node `r = (r-1) >> 1`
and store `H(id ‖ be32(r) ‖ D_INTR ‖ authtree[2r-1] ‖ authtree[2r])`
(the hash output is **not** truncated: the Go code stores
`hasher.Sum(nil)`). -/
def foldUpTree (Hf : List Nat → List Nat) (id : List Nat) :
    Nat → Nat → List (List Nat) → List (List Nat)
  | r, j, t =>
    if h : j % 2 = 1 then
      let r2 := (r - 1) / 2
      let t2 := t.set (r2 - 1)
        (Hf (id ++ be32 r2 ++ D_INTR ++ t.get! (2 * r2 - 1) ++ t.get! (2 * r2)))
      foldUpTree Hf id r2 ((j - 1) / 2) t2
    else t
termination_by _r j _t => j
decreasing_by
  omega

/-- The main leaf loop of `GeneratePKTree`: for each leaf `i`, derive the
one-time key pair for leaf `i`, store the leaf node
`H(id ‖ be32(leaves + i) ‖ D_LEAF ‖ k)` (again untruncated), and collapse
completed subtrees with `foldUpTree`. -/
def pktreeLoop (op : common.LmsOtsParam) (otc : Nat) (id seed : List Nat)
    (leaves : Nat) : Nat → List (List Nat) → Except String (List (List Nat))
  | i, t =>
    if h : i < leaves then do
      let ots_priv ← ots.NewPrivateKeyFromSeed otc i id seed
      let ots_pub ← ots_priv.Public
      let r := i + leaves
      let t1 := t.set (r - 1) (op.H (id ++ be32 r ++ D_LEAF ++ ots_pub.k))
      pktreeLoop op otc id seed leaves (i + 1) (foldUpTree op.H id r i t1)
    else .ok t
termination_by i _t => leaves - i
decreasing_by
  omega

/-- `GeneratePKTree`: build the full `2^(H+1) - 1`-node Merkle tree. -/
def GeneratePKTree (tc otc : Nat) (id seed : List Nat) :
    Except String (List (List Nat)) :=
  match common.LmsParams tc with
  | none => .error "LmsParams(): invalid type code"
  | some params =>
    match common.Params otc with
    | none => .error "Params(): invalid type code"
    | some ots_params =>
      let tree_nodes := (1 <<< (params.H + 1)) - 1
      let leaves := 1 <<< params.H
      pktreeLoop ots_params otc id seed leaves 0
        (List.replicate tree_nodes [])

/-- `lms.NewPrivateKeyFromSeed`: validate both typecodes, generate the
tree, and start the counter at `q = 0`. -/
def NewPrivateKeyFromSeed (tc otc : Nat) (id seed : List Nat) :
    Except String LmsPrivateKey :=
  match common.LmsType tc with
  | .error e => .error e
  | .ok tc =>
    match common.LmsOtsType otc with
    | .error e => .error e
    | .ok otc =>
      match GeneratePKTree tc otc id seed with
      | .error e => .error e
      | .ok tree =>
        .ok { typecode := tc, otstype := otc, q := 0, id := id, seed := seed,
              authtree := tree }

/-- `LmsPrivateKey.Public`: the root node `authtree[0]` is the public key
value `k`. -/
def LmsPrivateKey.Public (priv : LmsPrivateKey) : LmsPublicKey :=
  { typecode := priv.typecode
    otstype := priv.otstype
    id := priv.id
    k := priv.authtree.get! 0 }

/-- `LmsPrivateKey.Sign`: fail when `q ≥ 2^H`; otherwise derive the
ephemeral one-time key for leaf `q`, sign, extract the authentication path
`authpath[i] = authtree[((r >> i) XOR 1) - 1]`, advance `q`, and return the
signature carrying the pre-increment counter (`priv.q - 1` evaluated after
`incrementQ`, on the incremented `uint32`).  The post-call key is returned
alongside; all failure paths leave it unchanged. -/
def LmsPrivateKey.Sign (priv : LmsPrivateKey) (msg : List Nat)
    (rng : Except String (List Nat)) :
    Except String LmsSignature × LmsPrivateKey :=
  match common.LmsParams priv.typecode with
  | none => (.error "LmsParams(): invalid type code", priv)
  | some params =>
    let leaves := 1 <<< params.H
    if leaves ≤ priv.q then (.error "Sign(): invalid private key", priv)
    else
      match ots.NewPrivateKeyFromSeed priv.otstype priv.q priv.id priv.seed with
      | .error e => (.error e, priv)
      | .ok ots_priv =>
        match ots_priv.Sign msg rng with
        | (.error e, _) => (.error e, priv)
        | (.ok ots_sig, _) =>
          let r := leaves + priv.q
          let authpath := (List.range params.H).map fun i =>
            priv.authtree.get! (((r >>> i) ^^^ 1) - 1)
          let priv2 := { priv with q := (priv.q + 1) % 4294967296 }
          (.ok { typecode := priv.typecode
                 q := priv2.q - 1
                 ots := ots_sig
                 path := authpath }, priv2)

/-- `LmsPublicKey.Verify` (RFC 8554 Algorithm 6a): recover the candidate
one-time public key, rebuild the root along the authentication path (each
node hash truncated to the LM-OTS `N`!), and compare with `k`. -/
def LmsPublicKey.Verify (pub : LmsPublicKey) (msg : List Nat)
    (sig : LmsSignature) : Bool :=
  match common.LmsParams pub.typecode with
  | none => false
  | some params =>
    match common.Params pub.otstype with
    | none => false
    | some ots_params =>
      if sig.typecode ≠ pub.typecode then false
      else
        let leaves := 1 <<< params.H
        match sig.ots.RecoverPublicKey msg pub.otstype pub.id sig.q with
        | none => false
        | some key_candidate =>
          let node_num0 := (sig.q + leaves) % 4294967296
          let tmp0 := (ots_params.H
            (pub.id ++ be32 node_num0 ++ D_LEAF ++ key_candidate.k)).take ots_params.N
          let walk := (List.range params.H).foldl
            (fun (st : List Nat × Nat) i =>
              let tmp := st.1
              let node_num := st.2
              let inner :=
                if node_num % 2 = 1 then sig.path.get! i ++ tmp
                else tmp ++ sig.path.get! i
              ((ots_params.H
                  (pub.id ++ be32 (node_num >>> 1) ++ D_INTR ++ inner)).take ots_params.N,
               node_num >>> 1))
            (tmp0, node_num0)
          walk.1 = pub.k

end lms

/-! ## Serialization: signature parsers

`lms.LmsSignatureFromBytes` (`lms/lms/signature.go`) and
`ots.LmsOtsSignatureFromBytes` (`lms/ots/signature.go`).  To settle the
no-panic claim, parsing results distinguish a Go `panic` (out-of-range
slice access / the old parser's panic on an invalid typecode) from a
returned `error`. -/

/-- The outcome of a Go parsing function: a value, a returned `error`, or a
runtime `panic`. -/
inductive PRes (α : Type) where
  | ok (a : α)
  | err (e : String)
  | panic
deriving DecidableEq

/-- A Go slice expression `b[lo:hi]`: panics (`none`) unless
`lo ≤ hi ≤ len(b)`. -/
def goSlice (b : List Nat) (lo hi : Nat) : Option (List Nat) :=
  if lo ≤ hi ∧ hi ≤ b.length then some ((b.drop lo).take (hi - lo)) else none

namespace ots

/-- `ots.LmsOtsSignatureFromBytes`: parse an LM-OTS signature.  Per the
source, an unregistered typecode panics ("Panic if not a valid LM-OTS
algorithm"); length mismatches return errors. -/
def LmsOtsSignatureFromBytes (b : List Nat) : PRes LmsOtsSignature :=
  if b.length < 4 then .err "No typecode"
  else
    let typecode := beUint32 b
    match common.Params typecode with
    | none => .panic
    | some params =>
      if b.length < params.SIG_LEN then .err "LMOTS signature too short"
      else if params.SIG_LEN < b.length then .err "LMOTS signature too long"
      else
        let c := (b.drop 4).take params.N
        let y := (List.range params.P).map fun i =>
          (b.drop (4 + params.N + i * params.N)).take params.N
        .ok { typecode := typecode, c := c, y := y }

end ots

namespace lms

/-- `lms.LmsSignatureFromBytes`: parse an LMS signature.  Every Go slice
access is modelled through `goSlice`, so an out-of-range access shows up as
`PRes.panic` instead of an error return. -/
def LmsSignatureFromBytes (b : List Nat) : PRes LmsSignature :=
  if b.length < 8 then .err "LmsSignatureFromBytes(): Signature is too short"
  else
    match goSlice b 0 4, goSlice b 4 8 with
    | some qb, some otb =>
      let q := beUint32 qb
      let otstc := beUint32 otb
      match common.LmsOtsType otstc with
      | .error e => .err e
      | .ok _ =>
        match common.LmsOtsSigLength otstc with
        | .error e => .err e
        | .ok otssiglen =>
          let otsigmax := 4 + otssiglen
          if 4 + b.length ≤ otsigmax then
            .err "LmsSignatureFromBytes(): Signature is too short for LM-OTS typecode"
          else
            match goSlice b otsigmax (otsigmax + 4) with
            | none => .panic
            | some tcb =>
              let typecode := beUint32 tcb
              match common.LmsType typecode with
              | .error e => .err e
              | .ok _ =>
                match common.LmsSigLength typecode otstc with
                | .error e => .err e
                | .ok siglen =>
                  if siglen ≠ b.length then
                    .err "LmsSignatureFromBytes(): Invalid LMS signature length"
                  else
                    match goSlice b 4 otsigmax with
                    | none => .panic
                    | some otsbytes =>
                      match ots.LmsOtsSignatureFromBytes otsbytes with
                      | .panic => .panic
                      | .err e => .err e
                      | .ok otsig =>
                        match common.LmsParams typecode with
                        | none => .err "LmsParams(): invalid type code"
                        | some lmsparams =>
                          let m := lmsparams.M
                          let start := otsigmax + 4
                          if (1 <<< lmsparams.H) ≤ q then
                            .err "LmsSignatureFromBytes(): Internal counter is too high"
                          else
                            let path := (List.range lmsparams.H).map fun i =>
                              (b.drop (start + i * m)).take m
                            .ok { typecode := typecode, q := q, ots := otsig,
                                  path := path }
    | _, _ => .panic

/-- `lms.LmsPrivateKeyFromBytes`: parse a serialized private key
(`be32(lmstype) ‖ be32(otstype) ‖ be32(q) ‖ id[16] ‖ seed[M]`), regenerate
the tree from the seed, then overwrite `q` with the stored value — which is
**not** range-checked. -/
def LmsPrivateKeyFromBytes (b : List Nat) : Except String LmsPrivateKey :=
  if b.length < 8 then .error "LmsPrivateKeyFromBytes(): Input is too short"
  else
    let typecode := beUint32 b
    match common.LmsType typecode with
    | .error e => .error e
    | .ok _ =>
      let otstype := beUint32 (b.drop 4)
      match common.LmsOtsType otstype with
      | .error e => .error e
      | .ok _ =>
        match common.LmsParams typecode with
        | none => .error "LmsParams(): invalid type code"
        | some lmsparams =>
          if b.length < lmsparams.M + 28 then
            .error "LmsPrivateKeyFromBytes(): Input is too short"
          else
            let q := beUint32 (b.drop 8)
            let id := (b.drop 12).take 16
            let seed := (b.drop 28).take lmsparams.M
            match NewPrivateKeyFromSeed typecode otstype id seed with
            | .error e => .error e
            | .ok privateKey => .ok { privateKey with q := q }

end lms

/-! ## Claim C7: totality of the parameter registries -/

/-- The numeric tuple `(N, W, P, LS, SIG_LEN)` of an LM-OTS parameter set. -/
def otsTuple (tc : Nat) : Option (Nat × Nat × Nat × Nat × Nat) :=
  (common.Params tc).map fun p => (p.N, p.W, p.P, p.LS, p.SIG_LEN)

/-- The numeric tuple `(M, H)` of an LMS parameter set. -/
def lmsTuple (tc : Nat) : Option (Nat × Nat) :=
  (common.LmsParams tc).map fun p => (p.M, p.H)

/-- **C7.** The LM-OTS lookup is total: typecodes `0x01..0x08` map to
exactly the registry rows of the spec table, with
`SIG_LEN = 4 + N + P·N` in every row, and every other value is rejected
(`none`, the `UnknownTypecode` error); the LMS lookup maps `0x05..0x09` to
`M = 32` and `0x0A..0x0E` to `M = 24` with heights 5, 10, 15, 20, 25, and
rejects every other value. -/
theorem lmots_lms_param_registry_total :
    (otsTuple 1 = some (32, 1, 265, 7, 8516) ∧
     otsTuple 2 = some (32, 2, 133, 6, 4292) ∧
     otsTuple 3 = some (32, 4, 67, 4, 2180) ∧
     otsTuple 4 = some (32, 8, 34, 0, 1124) ∧
     otsTuple 5 = some (24, 1, 200, 8, 4828) ∧
     otsTuple 6 = some (24, 2, 101, 6, 2452) ∧
     otsTuple 7 = some (24, 4, 51, 4, 1252) ∧
     otsTuple 8 = some (24, 8, 26, 0, 652)) ∧
    (lmsTuple 5 = some (32, 5) ∧ lmsTuple 6 = some (32, 10) ∧
     lmsTuple 7 = some (32, 15) ∧ lmsTuple 8 = some (32, 20) ∧
     lmsTuple 9 = some (32, 25) ∧ lmsTuple 10 = some (24, 5) ∧
     lmsTuple 11 = some (24, 10) ∧ lmsTuple 12 = some (24, 15) ∧
     lmsTuple 13 = some (24, 20) ∧ lmsTuple 14 = some (24, 25)) ∧
    (∀ tc : Nat, ¬(1 ≤ tc ∧ tc ≤ 8) → common.Params tc = none) ∧
    (∀ tc : Nat, ¬(5 ≤ tc ∧ tc ≤ 14) → common.LmsParams tc = none) ∧
    (∀ tc : Nat, ∀ p : common.LmsOtsParam, common.Params tc = some p →
       p.SIG_LEN = 4 + p.N + p.P * p.N) := by
  refine ⟨⟨rfl, rfl, rfl, rfl, rfl, rfl, rfl, rfl⟩,
    ⟨rfl, rfl, rfl, rfl, rfl, rfl, rfl, rfl, rfl, rfl⟩, ?_, ?_, ?_⟩
  · intro tc h
    rcases tc with _|_|_|_|_|_|_|_|_|n
    · rfl
    all_goals first | rfl | omega
  · intro tc h
    rcases tc with _|_|_|_|_|_|_|_|_|_|_|_|_|_|_|n
    · rfl
    all_goals first | rfl | omega
  · intro tc p h
    rcases tc with _|_|_|_|_|_|_|_|_|n
    all_goals cases h <;> decide

/-- Witness for C7 at concrete inputs. -/
theorem lmots_lms_param_registry_total_witness :
    common.Params 0 = none ∧ common.Params 9 = none ∧
    common.LmsParams 15 = none ∧
    ((common.Params 5).get!).SIG_LEN =
      4 + ((common.Params 5).get!).N +
        ((common.Params 5).get!).P * ((common.Params 5).get!).N :=
  ⟨lmots_lms_param_registry_total.2.2.1 0 (by omega),
   lmots_lms_param_registry_total.2.2.1 9 (by omega),
   lmots_lms_param_registry_total.2.2.2.1 15 (by omega),
   lmots_lms_param_registry_total.2.2.2.2 5 ((common.Params 5).get!) rfl⟩

theorem get!_map_range {α : Type} [Inhabited α] (f : Nat → α) (n i : Nat)
    (h : i < n) : ((List.range n).map f).get! i = f i := by
  rw [List.get!_eq_getElem!, getElem!_pos _ _ (by simpa using h),
    List.getElem_map, List.getElem_range]

/-! ## Claim C8: Winternitz coefficients, checksum, and `Expand` -/

/-- Length of a `Coefs` digit string. -/
theorem Coefs_length (x : List Nat) (w : Nat) :
    (common.Coefs x w).length = (8 / w) * x.length := by
  simp [common.Coefs]

/-- Digit `i` of a `Coefs` digit string. -/
theorem Coefs_get! (x : List Nat) (w i : Nat) (h : i < (8 / w) * x.length) :
    (common.Coefs x w).get! i =
      (x.get! (i / (8 / w)) >>> (8 - w - (i % (8 / w)) * w)) &&& common.Mask w := by
  unfold common.Coefs
  exact get!_map_range _ _ _ h

/-- For registered windows the mask is `2^w - 1`. -/
theorem Mask_eq (w : Nat) (h : w = 1 ∨ w = 2 ∨ w = 4 ∨ w = 8) :
    common.Mask w = (1 <<< w) - 1 := by
  rcases h with h | h | h | h <;> subst h <;> decide

/-- The wrapping `uint16` fold in `Cksm` computes the plain sum mod `2^16`. -/
theorem foldl_mod_eq (l : List Nat) (w : Nat) : ∀ s : Nat,
    l.foldl (fun sum c => (sum + ((1 <<< w) - 1 - c)) % 65536) (s % 65536) =
      (l.foldl (fun sum c => sum + ((1 <<< w) - 1 - c)) s) % 65536 := by
  induction l with
  | nil => intro s; rfl
  | cons c l ih =>
    intro s
    simp only [List.foldl_cons]
    rw [Nat.mod_add_mod]
    exact ih _

/-- `Cksm` equals the specification formula
`(Σ (2^w - 1 - digit) << LS) mod 2^16`. -/
theorem Cksm_eq (coefs : List Nat) (w LS : Nat) :
    common.Cksm coefs w LS =
      (((coefs.foldl (fun sum c => sum + ((1 <<< w) - 1 - c)) 0) <<< LS) % 65536) := by
  unfold common.Cksm
  have h := foldl_mod_eq coefs w 0
  rw [Nat.zero_mod] at h
  rw [h]
  simp only [Nat.shiftLeft_eq]
  rw [Nat.mod_mul_mod]

/-- `Expand` evaluated when the truncation is in range. -/
theorem Expand_eq_of_le (tc : Nat) (p : common.LmsOtsParam) (digest : List Nat)
    (h : common.Params tc = some p)
    (hle : p.P ≤ (common.Coefs digest p.W ++
      common.Coefs (be16 (common.Cksm (common.Coefs digest p.W) p.W p.LS)) p.W).length) :
    common.Expand digest tc = .ok
      ((common.Coefs digest p.W ++
        common.Coefs (be16 (common.Cksm (common.Coefs digest p.W) p.W p.LS)) p.W).take p.P) := by
  unfold common.Expand
  rw [h]
  simp only [hle, if_pos]

/-- The truncation in `Expand` is always in range for a digest of the
registered length `N`. -/
theorem Expand_in_range (tc : Nat) (p : common.LmsOtsParam) (digest : List Nat)
    (h : common.Params tc = some p) (hd : digest.length = p.N) :
    p.P ≤ (common.Coefs digest p.W ++
      common.Coefs (be16 (common.Cksm (common.Coefs digest p.W) p.W p.LS)) p.W).length := by
  rw [List.length_append, Coefs_length, Coefs_length, hd]
  have hb : (be16 (common.Cksm (common.Coefs digest p.W) p.W p.LS)).length = 2 := rfl
  rw [hb]
  rcases tc with _|_|_|_|_|_|_|_|_|n <;> cases h <;> decide

/-- **C8.** `Coefs(x, W)` yields exactly `L·(8/W)` digits with digit `i`
equal to `(x[i/(8/W)] >> (8 - W - (i mod (8/W))·W)) & ((1<<W)-1)`; and for
an `N`-byte digest, `Expand` returns exactly `P` digits: the truncation to
`P` of `Coefs(digest)` followed by the `Coefs` of the big-endian 16-bit
checksum `(Σ (2^W - 1 - digit)) << LS`. -/
theorem coefs_expand_digits :
    (∀ (x : List Nat) (w : Nat), w = 1 ∨ w = 2 ∨ w = 4 ∨ w = 8 →
      (common.Coefs x w).length = x.length * (8 / w) ∧
      ∀ i : Nat, i < x.length * (8 / w) →
        (common.Coefs x w).get! i =
          (x.get! (i / (8 / w)) >>> (8 - w - (i % (8 / w)) * w)) &&& ((1 <<< w) - 1)) ∧
    (∀ (tc : Nat) (p : common.LmsOtsParam) (digest : List Nat),
      common.Params tc = some p → digest.length = p.N →
      common.Expand digest tc = .ok
        ((common.Coefs digest p.W ++
          common.Coefs (be16
            ((((common.Coefs digest p.W).foldl
                (fun sum c => sum + ((1 <<< p.W) - 1 - c)) 0) <<< p.LS) % 65536))
            p.W).take p.P) ∧
      ∀ l : List Nat, common.Expand digest tc = .ok l → l.length = p.P) := by
  constructor
  · intro x w hw
    refine ⟨by rw [Coefs_length, Nat.mul_comm], ?_⟩
    intro i hi
    have hi2 : i < (8 / w) * x.length := by rw [Nat.mul_comm]; exact hi
    rw [Coefs_get! x w i hi2, Mask_eq w hw]
  · intro tc p digest h hd
    have hle := Expand_in_range tc p digest h hd
    have heq := Expand_eq_of_le tc p digest h hle
    rw [← Cksm_eq]
    refine ⟨heq, ?_⟩
    intro l hl
    rw [heq] at hl
    cases hl
    rw [List.length_take]
    rw [List.length_append] at hle ⊢
    omega

/-- Witness for C8 at a concrete window and digest. -/
theorem coefs_expand_digits_witness :
    ((common.Coefs [0xAB] 4).length = 1 * (8 / 4) ∧
      ∀ i : Nat, i < 1 * (8 / 4) →
        (common.Coefs [0xAB] 4).get! i =
          ([0xAB].get! (i / (8 / 4)) >>> (8 - 4 - (i % (8 / 4)) * 4)) &&& ((1 <<< 4) - 1)) ∧
    (∀ l : List Nat, common.Expand (List.replicate 24 0) 5 = .ok l → l.length = 200) :=
  ⟨(coefs_expand_digits.1 [0xAB] 4 (by omega)).imp (fun h => by simpa using h) id,
   (coefs_expand_digits.2 5 ((common.Params 5).get!) (List.replicate 24 0) rfl
     (by decide)).2⟩

/-! ## Claim C6: `LmsSignatureFromBytes` on short input -/

/-- A 653-byte input: `q = 0`, a valid LM-OTS typecode `0x08`
(`SIG_LEN = 652`), then zeros.  Its length lies in the window
`(652, 652 + 8)` where the parser's guard `4+len(b) <= otsigmax` passes but
the subsequent read `b[otsigmax : otsigmax+4]` is out of range. -/
def c6PanicInput : List Nat :=
  List.replicate 4 0 ++ [0, 0, 0, 8] ++ List.replicate 645 0

/-- **C6.** `LmsSignatureFromBytes` does *not* return an error on every
too-short input: on `c6PanicInput` the slice expression
`b[otsigmax : otsigmax+4]` (reading the LMS typecode at offset 656 of a
653-byte input) is out of range, a Go runtime panic. -/
theorem lms_signature_from_bytes_panics :
    lms.LmsSignatureFromBytes c6PanicInput = PRes.panic ∧
    c6PanicInput.length = 653 := by
  constructor <;> rfl

/-! ## Length of SHA-256 digests -/

theorem shaRound_length (st : List Nat) (kw : Nat) : (shaRound st kw).length = 8 :=
  rfl

theorem foldl_shaRound_length (kws : List Nat) : ∀ st : List Nat,
    st.length = 8 → (kws.foldl shaRound st).length = 8 := by
  induction kws with
  | nil => intro st h; exact h
  | cons k ks ih =>
    intro st _
    exact ih (shaRound st k) (shaRound_length st k)

theorem compressBlock_length (st block : List Nat) (h : st.length = 8) :
    (compressBlock st block).length = 8 := by
  unfold compressBlock
  rw [List.length_zipWith, h, foldl_shaRound_length _ st h]
  rfl

theorem foldl_compressBlock_length (blocks : List (List Nat)) : ∀ st : List Nat,
    st.length = 8 → (blocks.foldl compressBlock st).length = 8 := by
  induction blocks with
  | nil => intro st h; exact h
  | cons b bs ih =>
    intro st h
    exact ih _ (compressBlock_length st b h)

theorem foldr_be32_length (ws : List Nat) :
    (ws.foldr (fun w acc => be32 w ++ acc) []).length = 4 * ws.length := by
  induction ws with
  | nil => rfl
  | cons w ws ih =>
    simp only [List.foldr_cons, List.length_append, ih, List.length_cons]
    have hb : (be32 w).length = 4 := rfl
    omega

/-- Every SHA-256 digest is 32 bytes. -/
theorem sha256_length (msg : List Nat) : (sha256 msg).length = 32 := by
  unfold sha256
  rw [foldr_be32_length, foldl_compressBlock_length _ shaH0 rfl]

/-! ## LM-OTS machinery -/

/-- The facts about a registered LM-OTS row used by the chain arguments. -/
theorem Params_facts (tc : Nat) (p : common.LmsOtsParam)
    (h : common.Params tc = some p) :
    p.H = sha256 ∧ p.N ≤ 32 ∧ (p.W = 1 ∨ p.W = 2 ∨ p.W = 4 ∨ p.W = 8) := by
  rcases tc with _|_|_|_|_|_|_|_|_|n <;> cases h <;>
    exact ⟨rfl, by decide, by decide⟩

theorem get!_mem {α : Type} [Inhabited α] (l : List α) (i : Nat)
    (h : i < l.length) : l.get! i ∈ l := by
  rw [List.get!_eq_getElem!, getElem!_pos l i h]
  exact List.getElem_mem h

theorem rngFill_length (n : Nat) (bs : List Nat) : (ots.rngFill n bs).length = n := by
  simp only [ots.rngFill, List.length_append, List.length_take, List.length_replicate]
  omega

/-- A chain value keeps its length through `chainIter` (with the SHA-256
hasher and `n ≤ 32`). -/
theorem chainIter_length (n : Nat) (id : List Nat) (q i : Nat) (hn : n ≤ 32) :
    ∀ (steps : Nat) (v : List Nat) (s : Nat), v.length = n →
      (ots.chainIter sha256 n id q i v s steps).length = n := by
  intro steps
  induction steps with
  | zero => intro v s h; exact h
  | succ st ih =>
    intro v s h
    apply ih
    rw [List.length_take, sha256_length]
    omega

/-- Splitting a chain: `a + b` steps from tag `s` is `a` steps from `s`
followed by `b` steps from `s + a`. -/
theorem chainIter_append (Hf : List Nat → List Nat) (n : Nat) (id : List Nat)
    (q i : Nat) : ∀ (a b : Nat) (v : List Nat) (s : Nat),
    ots.chainIter Hf n id q i v s (a + b) =
      ots.chainIter Hf n id q i (ots.chainIter Hf n id q i v s a) (s + a) b := by
  have unfold1 : ∀ (v : List Nat) (s st : Nat),
      ots.chainIter Hf n id q i v s (st + 1) =
        ots.chainIter Hf n id q i
          ((Hf (id ++ be32 q ++ be16 i ++ [s % 256] ++ v)).take n) (s + 1) st :=
    fun _ _ _ => rfl
  intro a
  induction a with
  | zero => intro b v s; rw [Nat.zero_add]; rfl
  | succ a ih =>
    intro b v s
    have h1 : a + 1 + b = (a + b) + 1 := by omega
    rw [h1, unfold1, ih b _ (s + 1), unfold1 v s a]
    have h2 : s + 1 + a = s + (a + 1) := by omega
    rw [h2]

/-- Every digit produced by `Coefs` is at most the mask. -/
theorem Coefs_mem_le (x : List Nat) (w : Nat) :
    ∀ d ∈ common.Coefs x w, d ≤ common.Mask w := by
  intro d hd
  unfold common.Coefs at hd
  rcases List.mem_map.mp hd with ⟨i, _, hi⟩
  rw [← hi]
  exact Nat.and_le_right

/-- The digit string produced by a successful `Expand` on an `N`-byte
digest: it has length `P` and all digits are at most `2^W - 1`. -/
theorem Expand_digit_facts (tc : Nat) (p : common.LmsOtsParam)
    (digest expanded : List Nat) (h : common.Params tc = some p)
    (hd : digest.length = p.N)
    (he : common.Expand digest tc = .ok expanded) :
    expanded.length = p.P ∧
    ∀ i : Nat, i < p.P → expanded.get! i ≤ (1 <<< p.W) - 1 := by
  have hle := Expand_in_range tc p digest h hd
  rw [Expand_eq_of_le tc p digest h hle] at he
  cases he
  have hlen : (List.take p.P (common.Coefs digest p.W ++
      common.Coefs (be16 (common.Cksm (common.Coefs digest p.W) p.W p.LS)) p.W)).length
      = p.P := by
    rw [List.length_take]
    omega
  refine ⟨hlen, ?_⟩
  intro i hi
  have hmem := get!_mem _ i (by rw [hlen]; exact hi)
  have hmem2 := List.take_subset _ _ hmem
  rw [← Mask_eq p.W (Params_facts tc p h).2.2]
  rcases List.mem_append.mp hmem2 with hm | hm
  · exact Coefs_mem_le _ _ _ hm
  · exact Coefs_mem_le _ _ _ hm

/-- `ots.NewPrivateKeyFromSeed` on a registered typecode. -/
theorem ots_NewPrivateKeyFromSeed_ok (otc q : Nat) (id seed : List Nat)
    (p : common.LmsOtsParam) (h : common.Params otc = some p) :
    ots.NewPrivateKeyFromSeed otc q id seed = .ok
      { typecode := otc, q := q, id := id
        x := (List.range p.P).map fun i =>
          (p.H (id ++ be32 q ++ be16 i ++ [0xff] ++ seed)).take p.N
        valid := true } := by
  unfold ots.NewPrivateKeyFromSeed
  rw [h]

/-- `LmsOtsPrivateKey.Public` on a registered typecode. -/
theorem ots_Public_ok (k : ots.LmsOtsPrivateKey) (p : common.LmsOtsParam)
    (h : common.Params k.typecode = some p) :
    k.Public = .ok
      { typecode := k.typecode, q := k.q, id := k.id
        k := (p.H (k.id ++ be32 k.q ++ D_PBLC ++
          ((List.range p.P).map fun i =>
            ots.chainIter p.H p.N k.id k.q i (k.x.get! i) 0 ((1 <<< p.W) - 1)).flatten)).take p.N } := by
  unfold ots.LmsOtsPrivateKey.Public
  rw [h]

/-- `LmsOtsPrivateKey.Sign` on a valid key with a working RNG: the
successful result, given the digit expansion. -/
theorem ots_Sign_ok (k : ots.LmsOtsPrivateKey) (msg bs expanded : List Nat)
    (p : common.LmsOtsParam) (h : common.Params k.typecode = some p)
    (hv : k.valid = true)
    (he : common.Expand
      ((p.H (k.id ++ be32 k.q ++ D_MESG ++ ots.rngFill p.N bs ++ msg)).take p.N)
      k.typecode = .ok expanded) :
    k.Sign msg (.ok bs) = (.ok
      { typecode := k.typecode
        c := ots.rngFill p.N bs
        y := (List.range p.P).map fun i =>
          ots.chainIter p.H p.N k.id k.q i (k.x.get! i) 0 (expanded.get! i) },
      { k with x := [], valid := false }) := by
  unfold ots.LmsOtsPrivateKey.Sign
  rw [hv]
  simp only [Bool.true_eq_false, if_false]
  rw [h]
  simp only []
  rw [he]

/-- `LmsOtsSignature.RecoverPublicKey` when all structural checks pass. -/
theorem ots_Recover_ok (sig : ots.LmsOtsSignature) (msg : List Nat)
    (id : List Nat) (q : Nat) (expanded : List Nat) (p : common.LmsOtsParam)
    (h : common.Params sig.typecode = some p)
    (hc : sig.c.length = p.N) (hy : sig.y.length = p.P)
    (hall : sig.y.all (fun yi => yi.length = p.N) = true)
    (he : common.Expand ((p.H (id ++ be32 q ++ D_MESG ++ sig.c ++ msg)).take p.N)
      sig.typecode = .ok expanded) :
    sig.RecoverPublicKey msg sig.typecode id q = some
      { typecode := sig.typecode, q := q, id := id
        k := (p.H (id ++ be32 q ++ D_PBLC ++
          ((List.range p.P).map fun i =>
            ots.chainIter p.H p.N id q i (sig.y.get! i) (expanded.get! i)
              ((1 <<< p.W) - 1 - expanded.get! i)).flatten)).take p.N } := by
  unfold ots.LmsOtsSignature.RecoverPublicKey
  rw [if_neg (by exact fun hne => hne rfl)]
  rw [h]
  simp only [hc, hy]
  rw [if_neg (by omega), if_neg (by omega), if_neg (by rw [hall]; intro hx; exact hx rfl)]
  rw [he]

/-- **C2.** For every registered LM-OTS typecode, id, `q`, seed, message
and RNG-supplied nonce bytes: key generation from the seed succeeds,
`Public` succeeds, `Sign` succeeds, and the produced signature verifies
under the public key. -/
theorem ots_sign_verify_roundtrip
    (otc q : Nat) (id seed msg bs : List Nat) (p : common.LmsOtsParam)
    (h : common.Params otc = some p) :
    ∃ (priv : ots.LmsOtsPrivateKey) (pub : ots.LmsOtsPublicKey)
      (sig : ots.LmsOtsSignature) (priv2 : ots.LmsOtsPrivateKey),
      ots.NewPrivateKeyFromSeed otc q id seed = .ok priv ∧
      priv.Public = .ok pub ∧
      priv.Sign msg (.ok bs) = (.ok sig, priv2) ∧
      pub.Verify msg sig = true := by
  obtain ⟨hH, hN, hW⟩ := Params_facts otc p h
  have hdlen : ∀ l : List Nat, ((p.H l).take p.N).length = p.N := by
    intro l
    rw [hH, List.length_take, sha256_length]
    omega
  obtain ⟨expanded, he⟩ : ∃ expanded,
      common.Expand ((p.H (id ++ be32 q ++ D_MESG ++ ots.rngFill p.N bs ++ msg)).take p.N)
        otc = .ok expanded :=
    ⟨_, Expand_eq_of_le otc p _ h (Expand_in_range otc p _ h (hdlen _))⟩
  obtain ⟨hel, heb⟩ := Expand_digit_facts otc p _ expanded h (hdlen _) he
  refine ⟨_, _, _, _, ots_NewPrivateKeyFromSeed_ok otc q id seed p h,
    ots_Public_ok _ p h, ots_Sign_ok _ msg bs expanded p h rfl he, ?_⟩
  -- the remaining goal: the produced signature verifies
  have hXget : ∀ i : Nat, i < p.P →
      (((List.range p.P).map fun i =>
        (p.H (id ++ be32 q ++ be16 i ++ [0xff] ++ seed)).take p.N).get! i) =
      (p.H (id ++ be32 q ++ be16 i ++ [0xff] ++ seed)).take p.N := by
    intro i hi
    exact get!_map_range _ _ _ hi
  have hYget : ∀ i : Nat, i < p.P →
      (((List.range p.P).map fun i =>
        ots.chainIter p.H p.N id q i
          ((((List.range p.P).map fun j =>
            (p.H (id ++ be32 q ++ be16 j ++ [0xff] ++ seed)).take p.N)).get! i)
          0 (expanded.get! i)).get! i) =
      ots.chainIter p.H p.N id q i
        ((p.H (id ++ be32 q ++ be16 i ++ [0xff] ++ seed)).take p.N)
        0 (expanded.get! i) := by
    intro i hi
    rw [get!_map_range _ _ _ hi, hXget i hi]
  unfold ots.LmsOtsPublicKey.Verify
  have hall : (((List.range p.P).map fun i =>
      ots.chainIter p.H p.N id q i
        ((((List.range p.P).map fun j =>
          (p.H (id ++ be32 q ++ be16 j ++ [0xff] ++ seed)).take p.N)).get! i)
        0 (expanded.get! i)).all fun yi => yi.length = p.N) = true := by
    rw [List.all_eq_true]
    intro yi hmem
    rcases List.mem_map.mp hmem with ⟨i, hi, hyi⟩
    have hiP := List.mem_range.mp hi
    rw [decide_eq_true_eq, ← hyi, hXget i hiP, hH]
    exact chainIter_length p.N id q i hN _ _ _ (by rw [← hH]; exact hdlen _)
  have hrec := ots_Recover_ok
    { typecode := otc
      c := ots.rngFill p.N bs
      y := (List.range p.P).map fun i =>
        ots.chainIter p.H p.N id q i
          ((((List.range p.P).map fun j =>
            (p.H (id ++ be32 q ++ be16 j ++ [0xff] ++ seed)).take p.N)).get! i)
          0 (expanded.get! i) }
    msg id q expanded p h (rngFill_length _ _) (by simp) hall he
  rw [hrec]
  simp only []
  rw [decide_eq_true_eq]
  -- the recovered k equals the public k: the chains compose
  have hmaps : ((List.range p.P).map fun i =>
      ots.chainIter p.H p.N id q i
        ((((List.range p.P).map fun j =>
          ots.chainIter p.H p.N id q j
            ((((List.range p.P).map fun l =>
              (p.H (id ++ be32 q ++ be16 l ++ [0xff] ++ seed)).take p.N)).get! j)
            0 (expanded.get! j)).get! i))
        (expanded.get! i) ((1 <<< p.W) - 1 - expanded.get! i)) =
      ((List.range p.P).map fun i =>
        ots.chainIter p.H p.N id q i
          ((((List.range p.P).map fun j =>
            (p.H (id ++ be32 q ++ be16 j ++ [0xff] ++ seed)).take p.N)).get! i)
          0 ((1 <<< p.W) - 1)) := by
    apply List.map_congr_left
    intro i hi
    have hiP := List.mem_range.mp hi
    rw [hYget i hiP, hXget i hiP]
    have hchain := chainIter_append p.H p.N id q i (expanded.get! i)
      ((1 <<< p.W) - 1 - expanded.get! i)
      ((p.H (id ++ be32 q ++ be16 i ++ [0xff] ++ seed)).take p.N) 0
    rw [Nat.zero_add] at hchain
    rw [← hchain]
    have hb := heb i hiP
    congr 1
    omega
  rw [hmaps]

/-- **C3.** An LM-OTS private key is single-use: any successful `Sign`
leaves the key with erased chain starts (`x = nil`) and `valid = false`,
and every subsequent `Sign` on the post-call key fails with the
key-consumed error and produces no signature (the key is unchanged). -/
theorem ots_private_key_single_use (k : ots.LmsOtsPrivateKey) (msg : List Nat)
    (rng : Except String (List Nat)) (sig : ots.LmsOtsSignature)
    (k2 : ots.LmsOtsPrivateKey)
    (hsig : k.Sign msg rng = (.ok sig, k2)) :
    k2.x = [] ∧ k2.valid = false ∧
      ∀ (msg2 : List Nat) (rng2 : Except String (List Nat)),
        k2.Sign msg2 rng2 = (.error "Sign(): invalid private key", k2) := by
  unfold ots.LmsOtsPrivateKey.Sign at hsig
  by_cases hv : k.valid = false
  · rw [if_pos hv] at hsig
    simp at hsig
  · rw [if_neg hv] at hsig
    cases hP : common.Params k.typecode with
    | none => rw [hP] at hsig; simp at hsig
    | some p =>
      rw [hP] at hsig
      cases rng with
      | error e => simp at hsig
      | ok bs =>
        simp only [] at hsig
        cases hE : common.Expand
            ((p.H (k.id ++ be32 k.q ++ D_MESG ++ ots.rngFill p.N bs ++ msg)).take p.N)
            k.typecode with
        | error e => rw [hE] at hsig; simp at hsig
        | ok expanded =>
          rw [hE] at hsig
          simp only [Prod.mk.injEq] at hsig
          obtain ⟨hs1, hs2⟩ := hsig
          subst hs2
          refine ⟨rfl, rfl, ?_⟩
          intro msg2 rng2
          unfold ots.LmsOtsPrivateKey.Sign
          rw [if_pos rfl]

/-- Witness for C3: a concrete key for typecode 5 signs once and the
consumed key rejects every further `Sign`. -/
theorem ots_private_key_single_use_witness :
    ({ typecode := 5, q := 0, id := [], x := [], valid := false } :
      ots.LmsOtsPrivateKey).x = [] ∧
    ({ typecode := 5, q := 0, id := [], x := [], valid := false } :
      ots.LmsOtsPrivateKey).valid = false ∧
    ∀ (msg2 : List Nat) (rng2 : Except String (List Nat)),
      ots.LmsOtsPrivateKey.Sign
        { typecode := 5, q := 0, id := [], x := [], valid := false } msg2 rng2 =
      (.error "Sign(): invalid private key",
       { typecode := 5, q := 0, id := [], x := [], valid := false }) := by
  have hdig : ((((common.Params 5).get!).H
      ([] ++ be32 0 ++ D_MESG ++ ots.rngFill ((common.Params 5).get!).N [] ++ [])).take
        ((common.Params 5).get!).N).length = ((common.Params 5).get!).N := by
    rw [List.length_take]
    have hs : ((((common.Params 5).get!).H
        ([] ++ be32 0 ++ D_MESG ++ ots.rngFill ((common.Params 5).get!).N [] ++ []))).length = 32 :=
      sha256_length _
    have hN : ((common.Params 5).get!).N = 24 := rfl
    omega
  have he := Expand_eq_of_le 5 ((common.Params 5).get!) _ rfl
    (Expand_in_range 5 ((common.Params 5).get!) _ rfl hdig)
  have hsig := ots_Sign_ok
    { typecode := 5, q := 0, id := [], x := [], valid := true } [] []
    _ ((common.Params 5).get!) rfl rfl he
  exact ots_private_key_single_use _ [] (.ok []) _ _ hsig

/-- **C10.** If the RNG fails while `LmsOtsPrivateKey.Sign` draws the
nonce, the key is returned completely unchanged (chain starts intact,
`valid` still true), and a later `Sign` on the same key with a working RNG
succeeds; invalidation happens only on the success path. -/
theorem ots_sign_rng_failure_preserves_key
    (k : ots.LmsOtsPrivateKey) (msg : List Nat) (e : String)
    (p : common.LmsOtsParam) (h : common.Params k.typecode = some p)
    (hv : k.valid = true) :
    k.Sign msg (.error e) = (.error e, k) ∧
    ∀ (msg2 bs : List Nat), ∃ (sig : ots.LmsOtsSignature)
      (k2 : ots.LmsOtsPrivateKey), k.Sign msg2 (.ok bs) = (.ok sig, k2) := by
  obtain ⟨hH, hN, hW⟩ := Params_facts k.typecode p h
  constructor
  · unfold ots.LmsOtsPrivateKey.Sign
    rw [hv]
    simp only [Bool.true_eq_false, if_false]
    rw [h]
  · intro msg2 bs
    have hdig : ((p.H (k.id ++ be32 k.q ++ D_MESG ++ ots.rngFill p.N bs ++ msg2)).take p.N).length = p.N := by
      rw [hH, List.length_take, sha256_length]
      omega
    have he := Expand_eq_of_le k.typecode p _ h
      (Expand_in_range k.typecode p _ h hdig)
    exact ⟨_, _, ots_Sign_ok k msg2 bs _ p h hv he⟩

/-- Witness for C10 at a concrete key. -/
theorem ots_sign_rng_failure_preserves_key_witness :
    ots.LmsOtsPrivateKey.Sign
      { typecode := 5, q := 0, id := [], x := [], valid := true } []
      (.error "rng broke") =
      (.error "rng broke",
       { typecode := 5, q := 0, id := [], x := [], valid := true }) ∧
    ∀ (msg2 bs : List Nat), ∃ (sig : ots.LmsOtsSignature)
      (k2 : ots.LmsOtsPrivateKey),
      ots.LmsOtsPrivateKey.Sign
        { typecode := 5, q := 0, id := [], x := [], valid := true } msg2 (.ok bs) =
        (.ok sig, k2) :=
  ots_sign_rng_failure_preserves_key
    { typecode := 5, q := 0, id := [], x := [], valid := true } []
    "rng broke" ((common.Params 5).get!) rfl rfl

/-- Registered LMS rows: SHA-256 hashing, `M ∈ {24, 32}`, `H ≤ 25`. -/
theorem LmsParams_facts (tc : Nat) (lp : common.LmsParam)
    (h : common.LmsParams tc = some lp) :
    lp.Hash = sha256 ∧ (lp.M = 24 ∨ lp.M = 32) ∧ 5 ≤ lp.H ∧ lp.H ≤ 25 := by
  rcases tc with _|_|_|_|_|_|_|_|_|_|_|_|_|_|_|n <;> cases h <;>
    exact ⟨rfl, by decide, by decide, by decide⟩

/-- **C4.** For an LMS private key with registered typecodes, `Sign` fails
exactly when `q ≥ 2^H` at entry (the key-exhausted error) or the injected
RNG fails (propagating its error); every failing `Sign` returns the key
unchanged; every successful `Sign` increments `q` by exactly one, changes
nothing else, and the signature carries the pre-increment `q`. -/
theorem lms_sign_error_and_counter
    (k : lms.LmsPrivateKey) (msg : List Nat)
    (lp : common.LmsParam) (op : common.LmsOtsParam)
    (hlp : common.LmsParams k.typecode = some lp)
    (hop : common.Params k.otstype = some op) :
    ((1 <<< lp.H) ≤ k.q →
      ∀ rng, k.Sign msg rng = (.error "Sign(): invalid private key", k)) ∧
    (k.q < (1 <<< lp.H) →
      ∀ e : String, k.Sign msg (.error e) = (.error e, k)) ∧
    (k.q < (1 <<< lp.H) →
      ∀ bs : List Nat, ∃ (sig : lms.LmsSignature) (k2 : lms.LmsPrivateKey),
        k.Sign msg (.ok bs) = (.ok sig, k2) ∧
        k2.q = k.q + 1 ∧ k2.typecode = k.typecode ∧ k2.otstype = k.otstype ∧
        k2.id = k.id ∧ k2.seed = k.seed ∧ k2.authtree = k.authtree ∧
        sig.q = k.q) := by
  obtain ⟨hH, hN, hW⟩ := Params_facts k.otstype op hop
  obtain ⟨_, _, hH5, hH25⟩ := LmsParams_facts k.typecode lp hlp
  refine ⟨?_, ?_, ?_⟩
  · intro hq rng
    unfold lms.LmsPrivateKey.Sign
    rw [hlp]
    simp only [if_pos hq]
  · intro hq e
    unfold lms.LmsPrivateKey.Sign
    rw [hlp]
    simp only [if_neg (show ¬ ((1 <<< lp.H) ≤ k.q) by omega)]
    rw [ots_NewPrivateKeyFromSeed_ok k.otstype k.q k.id k.seed op hop]
    simp only []
    unfold ots.LmsOtsPrivateKey.Sign
    rw [if_neg (by simp)]
    rw [hop]
  · intro hq bs
    unfold lms.LmsPrivateKey.Sign
    rw [hlp]
    simp only [if_neg (show ¬ ((1 <<< lp.H) ≤ k.q) by omega)]
    rw [ots_NewPrivateKeyFromSeed_ok k.otstype k.q k.id k.seed op hop]
    simp only []
    have hdig : ((op.H (k.id ++ be32 k.q ++ D_MESG ++ ots.rngFill op.N bs ++ msg)).take op.N).length = op.N := by
      rw [hH, List.length_take, sha256_length]
      omega
    have he := Expand_eq_of_le k.otstype op _ hop
      (Expand_in_range k.otstype op _ hop hdig)
    rw [ots_Sign_ok _ msg bs _ op hop rfl he]
    simp only []
    have hmod : (k.q + 1) % 4294967296 = k.q + 1 := by
      have h2 : (1 <<< lp.H) ≤ 1 <<< 25 := by
        simp only [Nat.shiftLeft_eq, Nat.one_mul]
        exact Nat.pow_le_pow_right (by omega) hH25
      have h3 : (1 : Nat) <<< 25 = 33554432 := by decide
      omega
    refine ⟨_, _, rfl, ?_, rfl, rfl, rfl, rfl, rfl, ?_⟩
    · exact hmod
    · simp only [hmod]
      omega

/-- Witness for C4: an exhausted key (`H = 5`, `q = 32`), a fresh key with
a failing RNG, and a fresh key with a working RNG. -/
theorem lms_sign_error_and_counter_witness :
    (∀ rng, lms.LmsPrivateKey.Sign
      { typecode := 5, otstype := 1, q := 32, id := [], seed := [], authtree := [] }
      [] rng =
      (.error "Sign(): invalid private key",
       { typecode := 5, otstype := 1, q := 32, id := [], seed := [], authtree := [] })) ∧
    (lms.LmsPrivateKey.Sign
      { typecode := 5, otstype := 1, q := 0, id := [], seed := [], authtree := [] }
      [] (.error "rng down") =
      (.error "rng down",
       { typecode := 5, otstype := 1, q := 0, id := [], seed := [], authtree := [] })) ∧
    (∃ (sig : lms.LmsSignature) (k2 : lms.LmsPrivateKey),
      lms.LmsPrivateKey.Sign
        { typecode := 5, otstype := 1, q := 0, id := [], seed := [], authtree := [] }
        [] (.ok []) = (.ok sig, k2) ∧ k2.q = 1 ∧ sig.q = 0) := by
  refine ⟨?_, ?_, ?_⟩
  · exact (lms_sign_error_and_counter
      { typecode := 5, otstype := 1, q := 32, id := [], seed := [], authtree := [] }
      [] ((common.LmsParams 5).get!) ((common.Params 1).get!) rfl rfl).1 (by decide)
  · exact (lms_sign_error_and_counter
      { typecode := 5, otstype := 1, q := 0, id := [], seed := [], authtree := [] }
      [] ((common.LmsParams 5).get!) ((common.Params 1).get!) rfl rfl).2.1
      (by decide) "rng down"
  · obtain ⟨sig, k2, h1, h2, _, _, _, _, _, h8⟩ :=
      (lms_sign_error_and_counter
        { typecode := 5, otstype := 1, q := 0, id := [], seed := [], authtree := [] }
        [] ((common.LmsParams 5).get!) ((common.Params 1).get!) rfl rfl).2.2
        (by decide) []
    exact ⟨sig, k2, h1, h2, h8⟩

/-- Witness for C2 at typecode 5, `q = 0`, concrete id/seed/message/nonce. -/
theorem ots_sign_verify_roundtrip_witness :
    ∃ (priv : ots.LmsOtsPrivateKey) (pub : ots.LmsOtsPublicKey)
      (sig : ots.LmsOtsSignature) (priv2 : ots.LmsOtsPrivateKey),
      ots.NewPrivateKeyFromSeed 5 0 (List.replicate 16 0) [7] = .ok priv ∧
      priv.Public = .ok pub ∧
      priv.Sign [1, 2, 3] (.ok [9]) = (.ok sig, priv2) ∧
      pub.Verify [1, 2, 3] sig = true :=
  ots_sign_verify_roundtrip 5 0 (List.replicate 16 0) [7] [1, 2, 3] [9]
    ((common.Params 5).get!) rfl

/-! ## The Merkle tree built by `GeneratePKTree`

`specNode` is the RFC 8554 tree written as a recursion on the (1-based)
node number: leaves at `r ∈ [2^H, 2^(H+1))` hash the leaf public key under
`D_LEAF`, internal nodes hash their two children under `D_INTR` — in both
cases the **full** hash output, since `GeneratePKTree` stores
`hasher.Sum(nil)` untruncated.  The iterative construction with the
odd-index folding loop is then proved to fill `authtree[r-1]` with
`specNode r` for every node `r`. -/

theorem get!_set_eq {α : Type} [Inhabited α] (l : List α) (i : Nat) (a : α)
    (h : i < l.length) : (l.set i a).get! i = a := by
  rw [List.get!_eq_getElem!,
    getElem!_pos (l.set i a) i (by rw [List.length_set]; exact h)]
  exact List.getElem_set_self _

theorem get!_set_ne {α : Type} [Inhabited α] (l : List α) (i j : Nat) (a : α)
    (h : i ≠ j) : (l.set i a).get! j = l.get! j := by
  by_cases hj : j < l.length
  · rw [List.get!_eq_getElem!, List.get!_eq_getElem!,
      getElem!_pos (l.set i a) j (by rw [List.length_set]; exact hj),
      getElem!_pos l j hj]
    exact List.getElem_set_ne h _
  · rw [List.get!_eq_getElem!, List.get!_eq_getElem!,
      getElem!_neg (l.set i a) j (by rw [List.length_set]; exact hj),
      getElem!_neg l j hj]

/-- The one-time public key value `k` for leaf `i`: what
`ots.NewPrivateKeyFromSeed(otstc, i, id, seed)` followed by `Public()`
produces. -/
def otsLeafK (otc : Nat) (id seed : List Nat) (i : Nat) : List Nat :=
  match (ots.NewPrivateKeyFromSeed otc i id seed).bind ots.LmsOtsPrivateKey.Public with
  | .ok pub => pub.k
  | .error _ => []

/-- Node `r` (1-based) of the RFC 8554 authentication tree over `2^Ht`
leaves, with leaf values `leafK` and hash `Hf`, untruncated. -/
def specNode (Hf : List Nat → List Nat) (id : List Nat) (leafK : Nat → List Nat)
    (Ht : Nat) (r : Nat) : List Nat :=
  if 2 ^ Ht ≤ r then Hf (id ++ be32 r ++ D_LEAF ++ leafK (r - 2 ^ Ht))
  else if r = 0 then []
  else Hf (id ++ be32 r ++ D_INTR ++ specNode Hf id leafK Ht (2 * r) ++
    specNode Hf id leafK Ht (2 * r + 1))
termination_by 2 ^ (Ht + 1) - r
decreasing_by
  all_goals
    have _hp2 : 2 ^ (Ht + 1) = 2 * 2 ^ Ht := by rw [pow_succ]; ring
    omega

theorem specNode_leaf (Hf : List Nat → List Nat) (id : List Nat)
    (leafK : Nat → List Nat) (Ht r : Nat) (h : 2 ^ Ht ≤ r) :
    specNode Hf id leafK Ht r = Hf (id ++ be32 r ++ D_LEAF ++ leafK (r - 2 ^ Ht)) := by
  rw [specNode, if_pos h]

theorem specNode_internal (Hf : List Nat → List Nat) (id : List Nat)
    (leafK : Nat → List Nat) (Ht r : Nat) (h1 : 1 ≤ r) (h2 : r < 2 ^ Ht) :
    specNode Hf id leafK Ht r =
      Hf (id ++ be32 r ++ D_INTR ++ specNode Hf id leafK Ht (2 * r) ++
        specNode Hf id leafK Ht (2 * r + 1)) := by
  rw [specNode, if_neg (by omega), if_neg (by omega)]

/-- Every node value of the tree, for `r ≥ 1`, is a hash output. -/
theorem specNode_length (id : List Nat) (leafK : Nat → List Nat) (Ht r : Nat)
    (h1 : 1 ≤ r) : (specNode sha256 id leafK Ht r).length = 32 := by
  by_cases h : 2 ^ Ht ≤ r
  · rw [specNode_leaf _ _ _ _ _ h]
    exact sha256_length _
  · rw [specNode_internal _ _ _ _ _ h1 (by omega)]
    exact sha256_length _

theorem foldUpTree_length (Hf : List Nat → List Nat) (id : List Nat) :
    ∀ (j : Nat) (r : Nat) (t : List (List Nat)),
      (lms.foldUpTree Hf id r j t).length = t.length := by
  intro j
  induction j using Nat.strong_induction_on with
  | _ j ih =>
    intro r t
    rw [lms.foldUpTree]
    by_cases h : j % 2 = 1
    · rw [dif_pos h, ih ((j - 1) / 2) (by omega), List.length_set]
    · rw [dif_neg h]

/-- The number of leaves that must have been processed for the subtree of
node `r` (at depth `d`, so `2^d ≤ r < 2^(d+1)`) to be complete: its last
leaf is leaf `nodeEndAt - 1`. -/
def nodeEndAt (Ht d r : Nat) : Nat := (r + 1 - 2 ^ d) * 2 ^ (Ht - d)

/-- After processing leaves `0 .. bound-1`, every node whose subtree is
contained in those leaves holds its `specNode` value. -/
def treeOkUpTo (Hf : List Nat → List Nat) (id : List Nat)
    (leafK : Nat → List Nat) (Ht bound : Nat) (t : List (List Nat)) : Prop :=
  ∀ d r : Nat, d ≤ Ht → 2 ^ d ≤ r → r < 2 ^ (d + 1) → nodeEndAt Ht d r ≤ bound →
    t.get! (r - 1) = specNode Hf id leafK Ht r

/-- When the folding loop stops (local index even), the state is correct
for everything finished within leaves `0 .. i`: nodes finished strictly
earlier are covered by the precondition, nodes finishing exactly at leaf
`i` below the stopping depth cannot exist (parity), and the ones at or
above the stopping depth are covered by the precondition's second
disjunct. -/
theorem foldStop_treeOk (Hf : List Nat → List Nat) (id : List Nat)
    (leafK : Nat → List Nat) (Ht i d j r : Nat) (t : List (List Nat))
    (hd : d ≤ Ht) (_hj : j < 2 ^ d) (hr : r = j + 2 ^ d) (heven : j % 2 = 0)
    (hexact : nodeEndAt Ht d r = i + 1)
    (pre : ∀ d' r', d' ≤ Ht → 2 ^ d' ≤ r' → r' < 2 ^ (d' + 1) →
      (nodeEndAt Ht d' r' ≤ i ∨ (d ≤ d' ∧ nodeEndAt Ht d' r' = i + 1)) →
      t.get! (r' - 1) = specNode Hf id leafK Ht r') :
    treeOkUpTo Hf id leafK Ht (i + 1) t := by
  intro d' r' hd' hlo hhi hcond
  by_cases hle : nodeEndAt Ht d' r' ≤ i
  · exact pre d' r' hd' hlo hhi (Or.inl hle)
  · have hex : nodeEndAt Ht d' r' = i + 1 := by omega
    by_cases hdd : d ≤ d'
    · exact pre d' r' hd' hlo hhi (Or.inr ⟨hdd, hex⟩)
    · -- impossible: a node strictly above the stopping depth finishing at
      -- leaf i would force j to be odd
      exfalso
      have hr1 : r + 1 - 2 ^ d = j + 1 := by omega
      have hj1 : (j + 1) * 2 ^ (Ht - d) = i + 1 := by
        rw [← hr1]; exact hexact
      have hsplit : Ht - d' = (Ht - d) + (d - d') := by omega
      have hpow : (2 : Nat) ^ (Ht - d') = 2 ^ (Ht - d) * 2 ^ (d - d') := by
        rw [hsplit, pow_add]
      have hm : (r' + 1 - 2 ^ d') * 2 ^ (Ht - d') = i + 1 := hex
      rw [hpow] at hm
      have hm2 : ((r' + 1 - 2 ^ d') * 2 ^ (d - d')) * 2 ^ (Ht - d) = i + 1 := by
        rw [← hm]; ring
      have hcancel : (r' + 1 - 2 ^ d') * 2 ^ (d - d') = j + 1 :=
        Nat.eq_of_mul_eq_mul_right (Nat.two_pow_pos (Ht - d)) (by rw [hm2, hj1])
      have hdd1 : 1 ≤ d - d' := by omega
      have hpow2 : (2 : Nat) ^ (d - d') = 2 ^ (d - d' - 1) * 2 := by
        rw [← pow_succ]
        congr 1
        omega
      have heq2 : j + 1 = 2 * ((r' + 1 - 2 ^ d') * 2 ^ (d - d' - 1)) := by
        rw [← hcancel, hpow2]; ring
      omega

/-- Correctness of the folding loop: starting at a node `r = j + 2^d`
whose subtree finishes exactly at leaf `i`, in a state where everything
finished before leaf `i` — plus the already-folded part of leaf `i`'s
ancestor chain (depths `≥ d`) — is correct, folding leaves a state correct
for everything finished within leaves `0 .. i`. -/
theorem foldUpTree_correct (Hf : List Nat → List Nat) (id : List Nat)
    (leafK : Nat → List Nat) (Ht i : Nat) :
    ∀ (d j r : Nat) (t : List (List Nat)),
      d ≤ Ht → j < 2 ^ d → r = j + 2 ^ d →
      t.length = 2 ^ (Ht + 1) - 1 →
      nodeEndAt Ht d r = i + 1 →
      (∀ d' r', d' ≤ Ht → 2 ^ d' ≤ r' → r' < 2 ^ (d' + 1) →
        (nodeEndAt Ht d' r' ≤ i ∨ (d ≤ d' ∧ nodeEndAt Ht d' r' = i + 1)) →
        t.get! (r' - 1) = specNode Hf id leafK Ht r') →
      treeOkUpTo Hf id leafK Ht (i + 1) (lms.foldUpTree Hf id r j t) := by
  intro d
  induction d with
  | zero =>
    intro j r t hd hj hr hlen hexact pre
    have hj0 : j = 0 := by omega
    rw [lms.foldUpTree, dif_neg (by omega)]
    exact foldStop_treeOk Hf id leafK Ht i 0 j r t hd hj hr (by omega) hexact pre
  | succ d ih =>
    intro j r t hd hj hr hlen hexact pre
    by_cases hodd : j % 2 = 1
    · -- fold up one level
      rw [lms.foldUpTree, dif_pos hodd]
      have hp : (r - 1) / 2 = (j - 1) / 2 + 2 ^ d := by
        have h2 : 2 ^ (d + 1) = 2 * 2 ^ d := by rw [pow_succ]; ring
        omega
      have hj' : (j - 1) / 2 < 2 ^ d := by
        have h2 : 2 ^ (d + 1) = 2 * 2 ^ d := by rw [pow_succ]; ring
        omega
      have h2d : 2 ^ (d + 1) = 2 * 2 ^ d := by rw [pow_succ]; ring
      have hKpos : 0 < 2 ^ (Ht - (d + 1)) := Nat.two_pow_pos _
      have hKsplit : 2 ^ (Ht - d) = 2 ^ (Ht - (d + 1)) * 2 := by
        rw [← pow_succ]
        congr 1
        omega
      -- the children of the parent node
      have hch1 : 2 * ((r - 1) / 2) = r - 1 := by omega
      have hch2 : 2 * ((r - 1) / 2) + 1 = r := by omega
      -- the left sibling node r-1 finished strictly before leaf i
      have hsibEnd : nodeEndAt Ht (d + 1) (r - 1) + 2 ^ (Ht - (d + 1)) = i + 1 := by
        unfold nodeEndAt
        unfold nodeEndAt at hexact
        have h3 : r - 1 + 1 - 2 ^ (d + 1) = j := by omega
        have h4 : r + 1 - 2 ^ (d + 1) = j + 1 := by omega
        rw [h3]
        rw [h4] at hexact
        calc j * 2 ^ (Ht - (d + 1)) + 2 ^ (Ht - (d + 1))
            = (j + 1) * 2 ^ (Ht - (d + 1)) := by ring
          _ = i + 1 := hexact
      have hsib : t.get! (r - 1 - 1) = specNode Hf id leafK Ht (r - 1) := by
        apply pre (d + 1) (r - 1) hd (by omega) (by omega)
        exact Or.inl (by omega)
      have hcur : t.get! (r - 1) = specNode Hf id leafK Ht r := by
        apply pre (d + 1) r hd (by omega) (by omega)
        exact Or.inr ⟨le_refl _, hexact⟩
      -- the parent's subtree also finishes exactly at leaf i
      have hparentEnd : nodeEndAt Ht d ((r - 1) / 2) = i + 1 := by
        unfold nodeEndAt
        unfold nodeEndAt at hexact
        have h4 : r + 1 - 2 ^ (d + 1) = j + 1 := by omega
        rw [h4] at hexact
        have h5 : (r - 1) / 2 + 1 - 2 ^ d = (j - 1) / 2 + 1 := by omega
        rw [h5]
        have h6 : j + 1 = 2 * ((j - 1) / 2 + 1) := by omega
        rw [h6] at hexact
        rw [← hexact, hKsplit]
        ring
      -- the parent node's written value is its spec value
      have hparent1 : 1 ≤ (r - 1) / 2 := by
        have := Nat.one_le_two_pow (n := d)
        omega
      have hparentlt : (r - 1) / 2 < 2 ^ Ht := by
        have hmono : (2 : Nat) ^ (d + 1) ≤ 2 ^ Ht :=
          Nat.pow_le_pow_right (by omega) hd
        omega
      have hwrite : Hf (id ++ be32 ((r - 1) / 2) ++ D_INTR ++
            t.get! (2 * ((r - 1) / 2) - 1) ++ t.get! (2 * ((r - 1) / 2))) =
          specNode Hf id leafK Ht ((r - 1) / 2) := by
        rw [specNode_internal Hf id leafK Ht ((r - 1) / 2) hparent1 hparentlt]
        rw [hch2, hch1, hsib, hcur]
      apply ih ((j - 1) / 2) ((r - 1) / 2) _ (by omega) hj' hp
        (by rw [List.length_set]; exact hlen) hparentEnd
      -- precondition for the recursive call on the updated state
      intro d' r' hd' hlo hhi hcond
      by_cases hrp : r' = (r - 1) / 2
      · subst hrp
        rw [get!_set_eq _ _ _ (by rw [hlen]; omega)]
        exact hwrite
      · rw [get!_set_ne _ _ _ _ (by omega)]
        rcases hcond with hle | ⟨hdd, hex⟩
        · exact pre d' r' hd' hlo hhi (Or.inl hle)
        · by_cases hdd2 : d + 1 ≤ d'
          · exact pre d' r' hd' hlo hhi (Or.inr ⟨hdd2, hex⟩)
          · -- d' = d: the node finishing at leaf i at depth d is unique,
            -- so r' would have to be the parent, contradiction
            exfalso
            have hdeq : d' = d := by omega
            subst hdeq
            unfold nodeEndAt at hex hparentEnd
            have : r' + 1 - 2 ^ d' = (r - 1) / 2 + 1 - 2 ^ d' :=
              Nat.eq_of_mul_eq_mul_right (Nat.two_pow_pos _)
                (by rw [hex, hparentEnd])
            omega
    · -- local index even: the fold stops here
      rw [lms.foldUpTree, dif_neg hodd]
      exact foldStop_treeOk Hf id leafK Ht i (d + 1) j r t hd hj hr (by omega)
        hexact pre

/-- The leaf public key value `otsLeafK`, written out for a registered
typecode. -/
theorem otsLeafK_eq (otc i : Nat) (id seed : List Nat)
    (op : common.LmsOtsParam) (hop : common.Params otc = some op) :
    otsLeafK otc id seed i =
      (op.H (id ++ be32 i ++ D_PBLC ++
        ((List.range op.P).map fun j =>
          ots.chainIter op.H op.N id i j
            ((((List.range op.P).map fun l =>
              (op.H (id ++ be32 i ++ be16 l ++ [0xff] ++ seed)).take op.N)).get! j)
            0 ((1 <<< op.W) - 1)).flatten)).take op.N := by
  unfold otsLeafK
  rw [ots_NewPrivateKeyFromSeed_ok otc i id seed op hop]
  simp only [Except.bind]
  rw [ots_Public_ok _ op hop]

/-- Correctness of the main leaf loop of `GeneratePKTree`. -/
theorem pktreeLoop_correct (op : common.LmsOtsParam) (otc : Nat)
    (id seed : List Nat) (hop : common.Params otc = some op) (Ht : Nat) :
    ∀ (n i : Nat) (t : List (List Nat)), n = 2 ^ Ht - i →
      t.length = 2 ^ (Ht + 1) - 1 →
      treeOkUpTo op.H id (otsLeafK otc id seed) Ht i t →
      ∃ t2, lms.pktreeLoop op otc id seed (2 ^ Ht) i t = .ok t2 ∧
        t2.length = 2 ^ (Ht + 1) - 1 ∧
        treeOkUpTo op.H id (otsLeafK otc id seed) Ht (2 ^ Ht) t2 := by
  intro n
  induction n with
  | zero =>
    intro i t hn hlen hInv
    have hi : ¬ i < 2 ^ Ht := by omega
    rw [lms.pktreeLoop, dif_neg hi]
    refine ⟨t, rfl, hlen, ?_⟩
    intro d r hd hlo hhi hcond
    exact hInv d r hd hlo hhi (by omega)
  | succ m ih =>
    intro i t hn hlen hInv
    have hi : i < 2 ^ Ht := by omega
    rw [lms.pktreeLoop, dif_pos hi]
    rw [ots_NewPrivateKeyFromSeed_ok otc i id seed op hop]
    simp only [bind, Except.bind]
    rw [ots_Public_ok _ op hop]
    simp only [bind, Except.bind]
    rw [← otsLeafK_eq otc i id seed op hop]
    have h2Ht : 2 ^ (Ht + 1) = 2 * 2 ^ Ht := by rw [pow_succ]; ring
    apply ih (i + 1) _ (by omega)
    · rw [foldUpTree_length, List.length_set]
      exact hlen
    · -- the new state is correct up to leaf i inclusive
      apply foldUpTree_correct op.H id (otsLeafK otc id seed) Ht i Ht i
        (i + 2 ^ Ht) _ (le_refl Ht) hi rfl
        (by rw [List.length_set]; exact hlen)
      · unfold nodeEndAt
        rw [Nat.sub_self, pow_zero, Nat.mul_one]
        omega
      · intro d' r' hd' hlo hhi hcond
        rcases hcond with hle | ⟨hdd, hex⟩
        · have hne : r' ≠ i + 2 ^ Ht := by
            intro hcon
            subst hcon
            have hdeq : d' = Ht := by
              by_cases hch : d' < Ht
              · exfalso
                have : (2 : Nat) ^ (d' + 1) ≤ 2 ^ Ht :=
                  Nat.pow_le_pow_right (by omega) (by omega)
                omega
              · omega
            subst hdeq
            unfold nodeEndAt at hle
            rw [Nat.sub_self, pow_zero, Nat.mul_one] at hle
            omega
          rw [get!_set_ne _ _ _ _ (by
            have h1 : 1 ≤ r' := by
              have := Nat.one_le_two_pow (n := d')
              omega
            omega)]
          exact hInv d' r' hd' hlo hhi hle
        · have hdeq : d' = Ht := by omega
          unfold nodeEndAt at hex
          rw [hdeq, Nat.sub_self, pow_zero, Nat.mul_one] at hex
          have hreq : r' = i + 2 ^ Ht := by omega
          rw [hreq, get!_set_eq _ _ _ (by omega)]
          rw [specNode_leaf _ _ _ _ _ (by omega)]
          have harg : i + 2 ^ Ht - 2 ^ Ht = i := by omega
          rw [harg]

/-- `GeneratePKTree` succeeds on registered typecodes and fills
`authtree[r-1]` with `specNode r` for every node `r`. -/
theorem GeneratePKTree_correct (tc otc : Nat) (id seed : List Nat)
    (lp : common.LmsParam) (op : common.LmsOtsParam)
    (hlp : common.LmsParams tc = some lp) (hop : common.Params otc = some op) :
    ∃ T, lms.GeneratePKTree tc otc id seed = .ok T ∧
      T.length = 2 ^ (lp.H + 1) - 1 ∧
      treeOkUpTo op.H id (otsLeafK otc id seed) lp.H (2 ^ lp.H) T := by
  unfold lms.GeneratePKTree
  rw [hlp]
  simp only []
  rw [hop]
  simp only [Nat.one_shiftLeft]
  obtain ⟨T, h1, h2, h3⟩ := pktreeLoop_correct op otc id seed hop lp.H
    (2 ^ lp.H) 0 (List.replicate (2 ^ (lp.H + 1) - 1) ([] : List Nat))
    ((Nat.sub_zero _).symm) (by rw [List.length_replicate])
    (by
      intro d r hd hlo hhi hcond
      exfalso
      unfold nodeEndAt at hcond
      have hpos : 0 < (r + 1 - 2 ^ d) * 2 ^ (lp.H - d) :=
        Nat.mul_pos (by omega) (Nat.two_pow_pos _)
      omega)
  exact ⟨T, h1, h2, h3⟩

/-- At full bound, every node `1 ≤ r < 2^(Ht+1)` is its spec value. -/
theorem treeOk_full (Hf : List Nat → List Nat) (id : List Nat)
    (leafK : Nat → List Nat) (Ht : Nat) (t : List (List Nat))
    (h : treeOkUpTo Hf id leafK Ht (2 ^ Ht) t) :
    ∀ r, 1 ≤ r → r < 2 ^ (Ht + 1) →
      t.get! (r - 1) = specNode Hf id leafK Ht r := by
  intro r h1 h2
  have hlo : 2 ^ Nat.log2 r ≤ r := Nat.log2_self_le (by omega)
  have hhi : r < 2 ^ (Nat.log2 r + 1) := Nat.lt_log2_self
  have hdle : Nat.log2 r ≤ Ht := by
    by_contra hcon
    have : (2 : Nat) ^ (Ht + 1) ≤ 2 ^ Nat.log2 r :=
      Nat.pow_le_pow_right (by omega) (by omega)
    omega
  apply h (Nat.log2 r) r hdle hlo hhi
  unfold nodeEndAt
  have hsum : 2 ^ Nat.log2 r * 2 ^ (Ht - Nat.log2 r) = 2 ^ Ht := by
    rw [← pow_add]
    congr 1
    omega
  have hle1 : r + 1 - 2 ^ Nat.log2 r ≤ 2 ^ Nat.log2 r := by
    have h2d : 2 ^ (Nat.log2 r + 1) = 2 * 2 ^ Nat.log2 r := by rw [pow_succ]; ring
    omega
  calc (r + 1 - 2 ^ Nat.log2 r) * 2 ^ (Ht - Nat.log2 r)
      ≤ 2 ^ Nat.log2 r * 2 ^ (Ht - Nat.log2 r) := Nat.mul_le_mul_right _ hle1
    _ = 2 ^ Ht := hsum

/-- **C5 (amended).** For every registered `(lmstype, otstype)` pair, id
and seed, `GeneratePKTree` succeeds with `2^(H+1) - 1` nodes; leaf node
`2^H + i` equals `H(id ‖ be32(2^H+i) ‖ D_LEAF ‖ k_i)` and internal node
`r` equals `H(id ‖ be32(r) ‖ D_INTR ‖ node[2r] ‖ node[2r+1])` — with **no
truncation**: every node is the full 32-byte SHA-256 output, regardless of
the parameter set's `M` (in particular the nodes are 32, not 24, bytes for
the `M = 24` parameter sets). -/
theorem lms_generate_pktree_nodes (tc otc : Nat) (id seed : List Nat)
    (lp : common.LmsParam) (op : common.LmsOtsParam)
    (hlp : common.LmsParams tc = some lp) (hop : common.Params otc = some op) :
    ∃ T, lms.GeneratePKTree tc otc id seed = .ok T ∧
      T.length = 2 ^ (lp.H + 1) - 1 ∧
      (∀ i, i < 2 ^ lp.H →
        T.get! (2 ^ lp.H + i - 1) =
          sha256 (id ++ be32 (2 ^ lp.H + i) ++ D_LEAF ++ otsLeafK otc id seed i)) ∧
      (∀ r, 1 ≤ r → r < 2 ^ lp.H →
        T.get! (r - 1) =
          sha256 (id ++ be32 r ++ D_INTR ++ T.get! (2 * r - 1) ++ T.get! (2 * r))) ∧
      (∀ r, 1 ≤ r → r < 2 ^ (lp.H + 1) → (T.get! (r - 1)).length = 32) := by
  obtain ⟨T, hT, hlen, hOk⟩ := GeneratePKTree_correct tc otc id seed lp op hlp hop
  have hH : op.H = sha256 := (Params_facts otc op hop).1
  rw [hH] at hOk
  have hfull := treeOk_full sha256 id (otsLeafK otc id seed) lp.H T hOk
  have h2H : 2 ^ (lp.H + 1) = 2 * 2 ^ lp.H := by rw [pow_succ]; ring
  have hpos : 1 ≤ 2 ^ lp.H := Nat.one_le_two_pow
  refine ⟨T, hT, hlen, ?_, ?_, ?_⟩
  · intro i hi
    rw [hfull (2 ^ lp.H + i) (by omega) (by omega)]
    rw [specNode_leaf _ _ _ _ _ (by omega)]
    have harg : 2 ^ lp.H + i - 2 ^ lp.H = i := by omega
    rw [harg]
  · intro r h1 h2
    rw [hfull r h1 (by omega)]
    rw [specNode_internal _ _ _ _ _ h1 h2]
    have hcl : T.get! (2 * r - 1) =
        specNode sha256 id (otsLeafK otc id seed) lp.H (2 * r) :=
      hfull (2 * r) (by omega) (by omega)
    have hcr : T.get! (2 * r) =
        specNode sha256 id (otsLeafK otc id seed) lp.H (2 * r + 1) :=
      hfull (2 * r + 1) (by omega) (by omega)
    rw [hcl, hcr]
  · intro r h1 h2
    rw [hfull r h1 h2]
    exact specNode_length id _ lp.H r h1

/-- Witness for C5 (amended) at `lmstype = 0x05`, `otstype = 0x01`. -/
theorem lms_generate_pktree_nodes_witness :
    ∃ T, lms.GeneratePKTree 5 1 (List.replicate 16 0) (List.replicate 32 0) = .ok T ∧
      T.length = 2 ^ (5 + 1) - 1 ∧
      (∀ i, i < 2 ^ 5 →
        T.get! (2 ^ 5 + i - 1) =
          sha256 (List.replicate 16 0 ++ be32 (2 ^ 5 + i) ++ D_LEAF ++
            otsLeafK 1 (List.replicate 16 0) (List.replicate 32 0) i)) := by
  obtain ⟨T, h1, h2, h3, _, _⟩ := lms_generate_pktree_nodes 5 1
    (List.replicate 16 0) (List.replicate 32 0)
    ((common.LmsParams 5).get!) ((common.Params 1).get!) rfl rfl
  exact ⟨T, h1, h2, h3⟩

/-- Counterexample to C5 as stated: for the `M = 24` parameter set
`0x0A` the tree's nodes are *not* `M = 24` bytes long (the root, like
every node, is a full 32-byte SHA-256 output). -/
theorem lms_generate_pktree_nodes_cex :
    ((lms.GeneratePKTree 10 5 (List.replicate 16 0)
        (List.replicate 24 0)).toOption.getD []).all
      (fun nd => nd.length = 24) = false ∧
    ((common.LmsParams 10).get!).M = 24 := by
  constructor
  · obtain ⟨T, hT, hlen, hOk⟩ := GeneratePKTree_correct 10 5
      (List.replicate 16 0) (List.replicate 24 0)
      ((common.LmsParams 10).get!) ((common.Params 5).get!) rfl rfl
    rw [hT]
    have hroot := treeOk_full ((common.Params 5).get!).H (List.replicate 16 0)
      (otsLeafK 5 (List.replicate 16 0) (List.replicate 24 0))
      ((common.LmsParams 10).get!).H T hOk 1 (by omega) (by decide)
    have hrootlen : (T.get! 0).length = 32 := by
      rw [hroot]
      exact specNode_length _ _ _ 1 (by omega)
    simp only [Except.toOption, Option.getD]
    rw [List.all_eq_false]
    refine ⟨T.get! 0, get!_mem T 0 (by rw [hlen]; decide), ?_⟩
    simp only [decide_eq_true_eq, List.get!_eq_getElem!] at hrootlen ⊢
    omega
  · rfl

/-! ## LMS private keys: construction, loading, and the counter -/

theorem LmsParams_range (tc : Nat) (lp : common.LmsParam)
    (h : common.LmsParams tc = some lp) : 5 ≤ tc ∧ tc ≤ 14 := by
  rcases tc with _|_|_|_|_|_|_|_|_|_|_|_|_|_|_|n <;> cases h <;> exact ⟨by omega, by omega⟩

theorem Params_range (otc : Nat) (op : common.LmsOtsParam)
    (h : common.Params otc = some op) : 1 ≤ otc ∧ otc ≤ 8 := by
  rcases otc with _|_|_|_|_|_|_|_|_|n <;> cases h <;> exact ⟨by omega, by omega⟩

/-- `lms.NewPrivateKeyFromSeed` on registered typecodes: the tree is built
and the counter starts at 0. -/
theorem lms_NewPrivateKeyFromSeed_ok (tc otc : Nat) (id seed : List Nat)
    (lp : common.LmsParam) (op : common.LmsOtsParam)
    (hlp : common.LmsParams tc = some lp) (hop : common.Params otc = some op) :
    ∃ T, lms.GeneratePKTree tc otc id seed = .ok T ∧
      T.length = 2 ^ (lp.H + 1) - 1 ∧
      treeOkUpTo op.H id (otsLeafK otc id seed) lp.H (2 ^ lp.H) T ∧
      lms.NewPrivateKeyFromSeed tc otc id seed = .ok
        { typecode := tc, otstype := otc, q := 0, id := id, seed := seed,
          authtree := T } := by
  obtain ⟨T, hT, hlen, hOk⟩ := GeneratePKTree_correct tc otc id seed lp op hlp hop
  refine ⟨T, hT, hlen, hOk, ?_⟩
  unfold lms.NewPrivateKeyFromSeed
  rw [show common.LmsType tc = .ok tc from by
    unfold common.LmsType
    rw [if_pos (LmsParams_range tc lp hlp)]]
  simp only []
  rw [show common.LmsOtsType otc = .ok otc from by
    unfold common.LmsOtsType
    rw [if_pos (Params_range otc op hop)]]
  simp only []
  rw [hT]

/-- `lms.LmsPrivateKeyFromBytes` on a well-formed input: the stored `q` is
taken over verbatim, with no range check. -/
theorem LmsPrivateKeyFromBytes_ok (b : List Nat)
    (lp : common.LmsParam) (op : common.LmsOtsParam)
    (h8 : ¬ b.length < 8)
    (hlp : common.LmsParams (beUint32 b) = some lp)
    (hop : common.Params (beUint32 (b.drop 4)) = some op)
    (hlen : ¬ b.length < lp.M + 28) :
    ∃ T, lms.GeneratePKTree (beUint32 b) (beUint32 (b.drop 4))
        ((b.drop 12).take 16) ((b.drop 28).take lp.M) = .ok T ∧
      lms.LmsPrivateKeyFromBytes b = .ok
        { typecode := beUint32 b, otstype := beUint32 (b.drop 4)
          q := beUint32 (b.drop 8), id := (b.drop 12).take 16
          seed := (b.drop 28).take lp.M, authtree := T } := by
  obtain ⟨T, hT, _, _, hNk⟩ := lms_NewPrivateKeyFromSeed_ok (beUint32 b)
    (beUint32 (b.drop 4)) ((b.drop 12).take 16) ((b.drop 28).take lp.M)
    lp op hlp hop
  refine ⟨T, hT, ?_⟩
  have hLT : common.LmsType (beUint32 b) = .ok (beUint32 b) := by
    unfold common.LmsType
    rw [if_pos (LmsParams_range _ lp hlp)]
  have hOT : common.LmsOtsType (beUint32 (b.drop 4)) = .ok (beUint32 (b.drop 4)) := by
    unfold common.LmsOtsType
    rw [if_pos (Params_range _ op hop)]
  unfold lms.LmsPrivateKeyFromBytes
  rw [if_neg h8]
  simp only [hLT, hOT, hlp, if_neg hlen, hNk]

/-- A sequence of `Sign` calls on an LMS private key, each using the
post-call key of the previous one. -/
def signChain (k : lms.LmsPrivateKey) :
    List (List Nat × Except String (List Nat)) → lms.LmsPrivateKey
  | [] => k
  | (msg, rng) :: rest => signChain (k.Sign msg rng).2 rest

/-- One `Sign` call preserves the typecode and keeps `q ≤ 2^H`. -/
theorem lms_sign_q_step (k : lms.LmsPrivateKey) (msg : List Nat)
    (rng : Except String (List Nat)) (lp : common.LmsParam)
    (hlp : common.LmsParams k.typecode = some lp) (hq : k.q ≤ 2 ^ lp.H) :
    ((k.Sign msg rng).2).q ≤ 2 ^ lp.H ∧
    ((k.Sign msg rng).2).typecode = k.typecode := by
  obtain ⟨_, _, _, hH25⟩ := LmsParams_facts k.typecode lp hlp
  unfold lms.LmsPrivateKey.Sign
  rw [hlp]
  simp only [Nat.one_shiftLeft]
  by_cases hle : 2 ^ lp.H ≤ k.q
  · rw [if_pos hle]
    exact ⟨hq, by trivial⟩
  · rw [if_neg hle]
    cases hA : ots.NewPrivateKeyFromSeed k.otstype k.q k.id k.seed with
    | error e => exact ⟨hq, by trivial⟩
    | ok K =>
      simp only []
      cases hS : K.Sign msg rng with
      | mk fst snd =>
        cases fst with
        | error e => exact ⟨hq, by trivial⟩
        | ok ots_sig =>
          simp only []
          have hmod : (k.q + 1) % 4294967296 = k.q + 1 := by
            have h2 : (2 : Nat) ^ lp.H ≤ 2 ^ 25 :=
              Nat.pow_le_pow_right (by omega) hH25
            have h3 : (2 : Nat) ^ 25 = 33554432 := by decide
            omega
          refine ⟨?_, trivial⟩
          simp only [hmod]
          omega

/-- **C9 (amended).** Keys produced by `lms.NewPrivateKeyFromSeed` start
at `q = 0`; any number of subsequent `Sign` calls keeps `0 ≤ q ≤ 2^H`
(after the `2^H`-th successful signature `q` reaches `2^H`, one past the
claimed strict bound); and `LmsPrivateKeyFromBytes` stores the parsed `q`
verbatim, with no range check at all. -/
theorem lms_private_key_q_bound :
    (∀ (tc otc : Nat) (id seed : List Nat) (k : lms.LmsPrivateKey),
      lms.NewPrivateKeyFromSeed tc otc id seed = .ok k → k.q = 0) ∧
    (∀ (k : lms.LmsPrivateKey) (lp : common.LmsParam)
       (msgs : List (List Nat × Except String (List Nat))),
      common.LmsParams k.typecode = some lp → k.q ≤ 2 ^ lp.H →
      (signChain k msgs).q ≤ 2 ^ lp.H) ∧
    (∀ (b : List Nat) (k : lms.LmsPrivateKey),
      lms.LmsPrivateKeyFromBytes b = .ok k → k.q = beUint32 (b.drop 8)) := by
  refine ⟨?_, ?_, ?_⟩
  · intro tc otc id seed k h
    unfold lms.NewPrivateKeyFromSeed at h
    cases hL : common.LmsType tc with
    | error e => rw [hL] at h; simp at h
    | ok tc2 =>
      rw [hL] at h
      simp only [] at h
      cases hO : common.LmsOtsType otc with
      | error e => rw [hO] at h; simp at h
      | ok otc2 =>
        rw [hO] at h
        simp only [] at h
        cases hG : lms.GeneratePKTree tc2 otc2 id seed with
        | error e => rw [hG] at h; simp at h
        | ok tree =>
          rw [hG] at h
          simp only [Except.ok.injEq] at h
          rw [← h]
  · intro k lp msgs
    induction msgs generalizing k with
    | nil => intro _ hq; exact hq
    | cons p rest ih =>
      intro hlp hq
      obtain ⟨hq2, htc⟩ := lms_sign_q_step k p.1 p.2 lp hlp hq
      show (signChain ((k.Sign p.1 p.2).2) rest).q ≤ 2 ^ lp.H
      exact ih _ (by rw [htc]; exact hlp) hq2
  · intro b k h
    unfold lms.LmsPrivateKeyFromBytes at h
    simp only [] at h
    by_cases h8 : b.length < 8
    · rw [if_pos h8] at h; simp at h
    · rw [if_neg h8] at h
      cases hL : common.LmsType (beUint32 b) with
      | error e => rw [hL] at h; simp at h
      | ok tc2 =>
        rw [hL] at h
        simp only [] at h
        cases hO : common.LmsOtsType (beUint32 (b.drop 4)) with
        | error e => rw [hO] at h; simp at h
        | ok otc2 =>
          rw [hO] at h
          simp only [] at h
          cases hP : common.LmsParams (beUint32 b) with
          | none => rw [hP] at h; simp at h
          | some lp =>
            rw [hP] at h
            simp only [] at h
            by_cases hlen : b.length < lp.M + 28
            · rw [if_pos hlen] at h; simp at h
            · rw [if_neg hlen] at h
              cases hN : lms.NewPrivateKeyFromSeed (beUint32 b) (beUint32 (b.drop 4))
                  ((b.drop 12).take 16) ((b.drop 28).take lp.M) with
              | error e => rw [hN] at h; simp at h
              | ok pk =>
                rw [hN] at h
                simp only [Except.ok.injEq] at h
                rw [← h]

/-- A serialized LMS private key for `lmstype 0x0A` / `otstype 0x05`
carrying the stored counter `q = 0xFFFFFFFF`. -/
def c9Input : List Nat :=
  be32 10 ++ be32 5 ++ [255, 255, 255, 255] ++
    List.replicate 16 0 ++ List.replicate 24 0

/-- Counterexample to C9 as stated: `LmsPrivateKeyFromBytes` accepts
`c9Input` and the resulting key has `q = 0xFFFFFFFF`, far outside
`0 ≤ q < 2^H = 32`. -/
theorem lms_private_key_q_bound_cex :
    (lms.LmsPrivateKeyFromBytes c9Input).isOk = true ∧
    2 ^ 5 ≤ ((lms.LmsPrivateKeyFromBytes c9Input).toOption.getD
      { typecode := 0, otstype := 0, q := 0, id := [], seed := [],
        authtree := [] }).q := by
  obtain ⟨T, hT, hfb⟩ := LmsPrivateKeyFromBytes_ok c9Input
    ((common.LmsParams 10).get!) ((common.Params 5).get!)
    (by decide) rfl rfl (by decide)
  rw [hfb]
  refine ⟨rfl, ?_⟩
  show 2 ^ 5 ≤ beUint32 (List.drop 8 c9Input)
  decide

/-- Witness for C9 (amended) at concrete keys and inputs. -/
theorem lms_private_key_q_bound_witness :
    ((lms.NewPrivateKeyFromSeed 5 1 (List.replicate 16 0)
        (List.replicate 32 0)).toOption.getD
      { typecode := 0, otstype := 0, q := 1, id := [], seed := [],
        authtree := [] }).q = 0 ∧
    (signChain
      { typecode := 5, otstype := 1, q := 0, id := [], seed := [], authtree := [] }
      [([], .error "e"), ([], .error "e")]).q ≤ 2 ^ 5 ∧
    ((lms.LmsPrivateKeyFromBytes c9Input).toOption.getD
      { typecode := 0, otstype := 0, q := 0, id := [], seed := [],
        authtree := [] }).q = beUint32 (c9Input.drop 8) := by
  obtain ⟨T, hT, _, _, hNk⟩ := lms_NewPrivateKeyFromSeed_ok 5 1
    (List.replicate 16 0) (List.replicate 32 0)
    ((common.LmsParams 5).get!) ((common.Params 1).get!) rfl rfl
  obtain ⟨T2, hT2, hfb⟩ := LmsPrivateKeyFromBytes_ok c9Input
    ((common.LmsParams 10).get!) ((common.Params 5).get!)
    (by decide) rfl rfl (by decide)
  refine ⟨?_, ?_, ?_⟩
  · have h1 := lms_private_key_q_bound.1 5 1 (List.replicate 16 0)
      (List.replicate 32 0)
      { typecode := 5, otstype := 1, q := 0, id := List.replicate 16 0,
        seed := List.replicate 32 0, authtree := T } hNk
    rw [hNk]
    exact h1
  · exact lms_private_key_q_bound.2.1
      { typecode := 5, otstype := 1, q := 0, id := [], seed := [], authtree := [] }
      ((common.LmsParams 5).get!) [([], .error "e"), ([], .error "e")] rfl
      (by decide)
  · have h3 := lms_private_key_q_bound.2.2 c9Input _ hfb
    rw [hfb]
    exact h3

/-- `LmsPrivateKey.Sign` characterized on the success path. -/
theorem lms_Sign_success (k : lms.LmsPrivateKey) (msg bs : List Nat)
    (lp : common.LmsParam) (op : common.LmsOtsParam)
    (hlp : common.LmsParams k.typecode = some lp)
    (hop : common.Params k.otstype = some op)
    (hq : k.q < 2 ^ lp.H) :
    ∃ (sig : lms.LmsSignature) (k2 : lms.LmsPrivateKey),
      k.Sign msg (.ok bs) = (.ok sig, k2) ∧
      sig.typecode = k.typecode ∧ sig.q = k.q ∧
      sig.ots.typecode = k.otstype ∧
      k2 = { k with q := k.q + 1 } := by
  obtain ⟨hH, hN, hW⟩ := Params_facts k.otstype op hop
  obtain ⟨_, _, _, hH25⟩ := LmsParams_facts k.typecode lp hlp
  have hq2 : ¬ (1 <<< lp.H ≤ k.q) := by
    rw [Nat.one_shiftLeft]
    omega
  unfold lms.LmsPrivateKey.Sign
  rw [hlp]
  simp only [if_neg hq2]
  rw [ots_NewPrivateKeyFromSeed_ok k.otstype k.q k.id k.seed op hop]
  simp only []
  have hdig : ((op.H (k.id ++ be32 k.q ++ D_MESG ++ ots.rngFill op.N bs ++ msg)).take op.N).length = op.N := by
    rw [hH, List.length_take, sha256_length]
    omega
  have he := Expand_eq_of_le k.otstype op _ hop
    (Expand_in_range k.otstype op _ hop hdig)
  rw [ots_Sign_ok _ msg bs _ op hop rfl he]
  simp only []
  have hmod : (k.q + 1) % 4294967296 = k.q + 1 := by
    have h2 : (2 : Nat) ^ lp.H ≤ 2 ^ 25 := Nat.pow_le_pow_right (by omega) hH25
    have h3 : (2 : Nat) ^ 25 = 33554432 := by decide
    omega
  refine ⟨_, _, rfl, rfl, ?_, rfl, ?_⟩
  · show (k.q + 1) % 4294967296 - 1 = k.q
    omega
  · show ({ k with q := (k.q + 1) % 4294967296 } : lms.LmsPrivateKey) = _
    rw [hmod]

/-- The root-rebuilding walk of `LmsPublicKey.Verify` always carries an
`N`-byte running value. -/
theorem verifyWalk_length (n : Nat) (hn : n ≤ 32) (pid : List Nat)
    (pth : List (List Nat)) :
    ∀ (l : List Nat) (st : List Nat × Nat), st.1.length = n →
      ((l.foldl (fun (st : List Nat × Nat) i =>
        ((sha256 (pid ++ be32 (st.2 >>> 1) ++ D_INTR ++
          (if st.2 % 2 = 1 then pth.get! i ++ st.1 else st.1 ++ pth.get! i))).take n,
         st.2 >>> 1)) st).1).length = n := by
  intro l
  induction l with
  | nil => intro st h; exact h
  | cons x xs ih =>
    intro st h
    apply ih
    rw [List.length_take, sha256_length]
    omega

/-- **C1 (refutation; the code loses its own signatures for N=24 LM-OTS
parameter sets).**  For every registered pair whose LM-OTS parameter set
has `N = 24` (typecodes 0x05..0x08), key generation and the very first
`Sign` succeed, but `Verify` on the just-produced signature returns
`false`: `GeneratePKTree` stores untruncated 32-byte nodes while `Verify`
rebuilds the root with every node truncated to `ots_params.N = 24` bytes,
so the final constant-time comparison is a 24-byte against a 32-byte
value. -/
theorem lms_n24_sign_verifies_false (tc otc : Nat) (id seed msg bs : List Nat)
    (lp : common.LmsParam) (op : common.LmsOtsParam)
    (hlp : common.LmsParams tc = some lp) (hop : common.Params otc = some op)
    (hN24 : op.N = 24) :
    ∃ (k : lms.LmsPrivateKey) (sig : lms.LmsSignature) (k2 : lms.LmsPrivateKey),
      lms.NewPrivateKeyFromSeed tc otc id seed = .ok k ∧
      k.Sign msg (.ok bs) = (.ok sig, k2) ∧
      (k.Public).Verify msg sig = false := by
  obtain ⟨T, hT, hTlen, hTOk, hNk⟩ :=
    lms_NewPrivateKeyFromSeed_ok tc otc id seed lp op hlp hop
  obtain ⟨hH, hN, hW⟩ := Params_facts otc op hop
  obtain ⟨sig, k2, hsig, hstc, hsq, hsot, hk2⟩ := lms_Sign_success
    { typecode := tc, otstype := otc, q := 0, id := id, seed := seed,
      authtree := T } msg bs lp op hlp hop (Nat.two_pow_pos _)
  refine ⟨_, sig, k2, hNk, hsig, ?_⟩
  have hrootlen : (T.get! 0).length = 32 := by
    rw [hH] at hTOk
    have hfull := treeOk_full sha256 id (otsLeafK otc id seed) lp.H T hTOk
    have h1 := hfull 1 (by omega) (by
      have := Nat.one_le_two_pow (n := lp.H + 1)
      have h2 : (2 : Nat) ^ (lp.H + 1) = 2 * 2 ^ lp.H := by rw [pow_succ]; ring
      have := Nat.one_le_two_pow (n := lp.H)
      omega)
    rw [h1]
    exact specNode_length _ _ _ 1 (by omega)
  unfold lms.LmsPrivateKey.Public
  unfold lms.LmsPublicKey.Verify
  simp only []
  rw [hlp]
  simp only []
  rw [hop]
  simp only []
  rw [if_neg (by intro hne; exact hne hstc)]
  cases hrec : sig.ots.RecoverPublicKey msg otc id sig.q with
  | none => rfl
  | some kc =>
    simp only []
    rw [hH]
    apply decide_eq_false
    intro heq
    have hwl := verifyWalk_length op.N (by omega) id sig.path
      (List.range lp.H)
      ((sha256 (id ++ be32 ((sig.q + 1 <<< lp.H) % 4294967296) ++ D_LEAF ++
        kc.k)).take op.N, (sig.q + 1 <<< lp.H) % 4294967296)
      (by rw [List.length_take, sha256_length]; omega)
    rw [heq] at hwl
    rw [hrootlen] at hwl
    omega

/-- Witness for the C1 refutation at `lmstype = 0x0A`, `otstype = 0x05`. -/
theorem lms_n24_sign_verifies_false_witness :
    ∃ (k : lms.LmsPrivateKey) (sig : lms.LmsSignature) (k2 : lms.LmsPrivateKey),
      lms.NewPrivateKeyFromSeed 10 5 (List.replicate 16 0)
        (List.replicate 24 0) = .ok k ∧
      k.Sign [1, 2] (.ok []) = (.ok sig, k2) ∧
      (k.Public).Verify [1, 2] sig = false :=
  lms_n24_sign_verifies_false 10 5 (List.replicate 16 0) (List.replicate 24 0)
    [1, 2] [] ((common.LmsParams 10).get!) ((common.Params 5).get!) rfl rfl rfl
